import Mathlib

/-!
Verification of the deep-algo options-trading core against its specification.

Shallow embedding conventions:
* Python `Decimal` values are embedded as exact rationals (`ℚ`); every
  comparison the code performs is a threshold test, which exact arithmetic
  models faithfully.
* Calendar dates are embedded as integer day numbers; `datetime.date.today()`
  becomes an explicit `today : Int` argument wherever the code reads the clock.
* Database and broker calls are I/O boundaries: each modelled function takes
  the responses it would receive as explicit arguments (`Except String _` for
  calls that may raise, the raised exception rendered as its `str(e)` text)
  and returns the list of persistence / broker effects it performs, in order.
* Python `int(...)` truncation toward zero on a `Decimal` quotient is
  `Int.div q.num q.den` (the denominator of a `Rat` is positive).
-/

namespace DeepAlgo

/-! ## ib/types.py -/

/-- `CloseReason` enumeration (ib/types.py). -/
inductive CloseReason where
  | HARD_STOP
  | PROFIT_TARGET
  | TIME_STOP
  | ALLOCATION_EXCEEDED
  | MANUAL
  | THESIS_INVALIDATED
deriving DecidableEq, Repr

/-- `.value` of the `CloseReason` StrEnum. -/
def CloseReason.value : CloseReason → String
  | .HARD_STOP => "stop_loss"
  | .PROFIT_TARGET => "profit_target"
  | .TIME_STOP => "time_stop"
  | .ALLOCATION_EXCEEDED => "allocation_exceeded"
  | .MANUAL => "manual"
  | .THESIS_INVALIDATED => "thesis_invalid"

/-- `OptionsPosition` (ib/types.py).  `opened_at` (a wall-clock timestamp) is
not consumed by any modelled code path and is omitted. -/
structure OptionsPosition where
  id : Int
  recommendation_id : Option Int := none
  ticker : String
  right : String
  strike : ℚ
  expiry : Int
  quantity : Int
  avg_fill_price : ℚ
  current_price : ℚ
  cost_basis : ℚ
  unrealized_pnl : ℚ
  realized_pnl : ℚ := 0
  status : String := "open"
  ib_con_id : Option Int := none
deriving DecidableEq, Repr

/-- `OptionsPosition.pnl_pct` (ib/types.py): P&L as a percentage of cost
basis, `0` when the cost basis is zero. -/
def OptionsPosition.pnl_pct (p : OptionsPosition) : ℚ :=
  if p.cost_basis = 0 then 0 else p.unrealized_pnl / p.cost_basis * 100

/-- `OptionsPosition.days_to_expiry` (ib/types.py).  The Python body reads
`datetime.date.today()`; the current date is therefore an explicit argument
of the embedding. -/
def OptionsPosition.days_to_expiry (p : OptionsPosition) (today : Int) : Int :=
  p.expiry - today

/-- `StopAction` (ib/types.py). -/
structure StopAction where
  close_all : Bool
  quantity : Int := 0
  reason : CloseReason := .MANUAL
deriving DecidableEq, Repr

/-- `ManagerConfig` (ib/types.py), with its dataclass defaults. -/
structure ManagerConfig where
  poll_interval_secs : Int := 30
  hard_stop_pct : ℚ := 50
  profit_target_1_pct : ℚ := 50
  profit_target_2_pct : ℚ := 100
  time_stop_dte : Int := 7
  max_allocation_pct : ℚ := 10
  max_correlated : Int := 3
deriving DecidableEq, Repr

/-! ## ib/rules.py -/

/-- `check_hard_stop` (ib/rules.py): close all if the position has lost at
least `hard_stop_pct` percent of its cost basis. -/
def check_hard_stop (pos : OptionsPosition) (config : ManagerConfig) :
    Option StopAction :=
  if -pos.pnl_pct ≥ config.hard_stop_pct then
    some { close_all := true, reason := .HARD_STOP }
  else none

/-- `check_time_stop` (ib/rules.py): close a losing position within
`time_stop_dte` days of expiry.  `today` stands for the hidden
`date.today()` read inside `days_to_expiry`. -/
def check_time_stop (pos : OptionsPosition) (config : ManagerConfig)
    (today : Int) : Option StopAction :=
  if pos.days_to_expiry today ≤ config.time_stop_dte ∧ pos.unrealized_pnl < 0 then
    some { close_all := true, reason := .TIME_STOP }
  else none

/-- `check_stop_rules` (ib/rules.py): hard stop first, then time stop, first
triggered action wins. -/
def check_stop_rules (pos : OptionsPosition) (config : ManagerConfig)
    (today : Int) : Option StopAction :=
  match check_hard_stop pos config with
  | some action => some action
  | none =>
    match check_time_stop pos config today with
    | some action => some action
    | none => none

/-- `check_profit_targets` (ib/rules.py): target 2 (close all) checked
first, else target 1 sells `quantity // 2` when more than one contract is
held. -/
def check_profit_targets (pos : OptionsPosition) (config : ManagerConfig) :
    Option StopAction :=
  let pnl_pct := pos.pnl_pct
  if pnl_pct ≥ config.profit_target_2_pct then
    some { close_all := true, reason := .PROFIT_TARGET }
  else if pnl_pct ≥ config.profit_target_1_pct ∧ pos.quantity > 1 then
    let half := pos.quantity / 2
    if half > 0 then
      some { close_all := false, quantity := half, reason := .PROFIT_TARGET }
    else none
  else none

/-- `check_allocation` (ib/rules.py).  The `f"...{x:.1f}..."` interpolations
are rendered with `toString`; only the structure and non-emptiness of the
reason strings matter to the spec. -/
def check_allocation (new_position_usd : ℚ) (current_options_total_usd : ℚ)
    (account_equity : ℚ) (config : ManagerConfig) : Bool × String :=
  if account_equity ≤ 0 then
    (false, "Rejected: account equity is zero or negative")
  else
    let max_allowed := account_equity * config.max_allocation_pct / 100
    let after_trade := current_options_total_usd + new_position_usd
    if after_trade > max_allowed then
      let current_pct := current_options_total_usd / account_equity * 100
      let would_be_pct := after_trade / account_equity * 100
      (false, "Rejected: would be " ++ toString would_be_pct ++ "% (current "
        ++ toString current_pct ++ "%, max "
        ++ toString config.max_allocation_pct ++ "%)")
    else
      let remaining := max_allowed - after_trade
      let utilization := if max_allowed ≠ 0 then after_trade / max_allowed * 100 else 0
      (true, "Approved: " ++ toString utilization ++ "% utilized, $"
        ++ toString remaining ++ " remaining capacity")

/-! ## ib/position_manager.py — monitoring and execution -/

/-- Python `int(...)` applied to a `Decimal` quotient truncates toward zero. -/
def pyTrunc (q : ℚ) : Int := Int.tdiv q.num q.den

/-- An effect performed by the monitoring path of `PositionManager`
(`_update_and_check` / `_execute_action`), in program order. -/
inductive PMEffect where
  | updatePrice (pos_id : Int) (price : ℚ) (pnl : ℚ)
  | placeSellMkt (qty : Int)
  | closePosition (pos_id : Int) (reason : String) (realized : ℚ)
  | partialClosePosition (pos_id : Int) (new_quantity : Int) (realized : ℚ)
  | updateThesisOutcome (thesis_id : Int) (realized : ℚ) (reason : String)
  | notifierSend (text : String)
deriving DecidableEq, Repr

/-- `PositionManager._execute_action` (position_manager.py).  `sell_fill` is
the broker's response to the market SELL: the fill's average price, or the
text of the raised exception (in which case nothing is persisted — the
handler only logs).  `thesis_id` is the response to
`get_thesis_id_for_position`. -/
def execute_action (pos : OptionsPosition) (action : StopAction)
    (sell_fill : Except String ℚ) (thesis_id : Option Int)
    (hasNotifier : Bool) : List PMEffect :=
  let qty := if action.close_all then pos.quantity else action.quantity
  PMEffect.placeSellMkt qty ::
    match sell_fill with
    | .error _ => []
    | .ok fill_price =>
      let realized := (fill_price - pos.avg_fill_price) * qty * 100
      (if action.close_all then
        PMEffect.closePosition pos.id action.reason.value realized ::
          (match thesis_id with
           | some t =>
             [PMEffect.updateThesisOutcome t (pos.realized_pnl + realized)
               action.reason.value]
           | none => [])
      else
        [PMEffect.partialClosePosition pos.id (pos.quantity - qty) realized]) ++
      (if hasNotifier then
        [PMEffect.notifierSend ((if action.close_all then "Closed" else "Partial close")
          ++ " " ++ pos.ticker ++ " " ++ toString qty ++ "x " ++ pos.right ++ " "
          ++ toString pos.strike ++ " — " ++ action.reason.value
          ++ " ($" ++ toString realized ++ ")")]
      else [])

/-- The `mid` field of a live quote as `_update_and_check` sees it: absent,
NaN, or an actual decimal value.  (A NaN `Decimal` makes the `<= 0`
comparison raise `InvalidOperation`, which the surrounding `except` catches,
so the NaN case also skips everything.) -/
inductive MidVal where
  | null
  | nan
  | val (q : ℚ)
deriving DecidableEq, Repr

/-- `PositionManager._update_and_check` (position_manager.py): re-price one
open position and run stop/target rules.  `quote` is `get_option_quote`'s
response (`.error` when it raises); `today` the hidden `date.today()`;
`sell_fill` / `thesis_id` the broker/DB responses consumed by
`execute_action` if an action fires. -/
def update_and_check (pos : OptionsPosition) (quote : Except String MidVal)
    (today : Int) (config : ManagerConfig) (sell_fill : Except String ℚ)
    (thesis_id : Option Int) (hasNotifier : Bool) : List PMEffect :=
  match quote with
  | .error _ => []
  | .ok mid =>
    match mid with
    | .null => []
    | .nan => []
    | .val new_price =>
      if new_price ≤ 0 then []
      else
        let unrealized := (new_price - pos.avg_fill_price) * pos.quantity * 100
        let pos' := { pos with current_price := new_price, unrealized_pnl := unrealized }
        PMEffect.updatePrice pos.id new_price unrealized ::
          match check_stop_rules pos' config today with
          | some action => execute_action pos' action sell_fill thesis_id hasNotifier
          | none =>
            match check_profit_targets pos' config with
            | some action => execute_action pos' action sell_fill thesis_id hasNotifier
            | none => []

/-! ## ib/position_manager.py — executing an approved recommendation -/

/-- The fields of an approved `trade_recommendations` row that
`_execute_recommendation` reads. -/
structure Rec where
  id : Int
  ticker : String
  right : String
  strike : ℚ
  expiry : Int
  entry_price_low : ℚ
  entry_price_high : ℚ
  position_size_usd : ℚ
deriving DecidableEq, Repr

/-- The fill report returned by `place_order` for the BUY. -/
structure FillR where
  quantity : Int
  avg_fill_price : ℚ
  con_id : Option Int := none
deriving DecidableEq, Repr

/-- An effect performed by `_execute_recommendation`, in program order. -/
inductive RecEffect where
  | updateRecStatus (rec_id : Int) (status : String) (reason : Option String)
  | placeBuyLmt (quantity : Int) (limit_price : ℚ)
  | insertPositionRec (rec_id : Int) (quantity : Int) (avg_fill_price : ℚ)
      (cost_basis : ℚ)
  | notifierSend (text : String)
deriving DecidableEq, Repr

/-- The tail of `_execute_recommendation` once a positive limit price is
fixed: size the order (`quantity = max(1, int(position_size_usd /
(limit_price × 100)))`), place it, persist the fill. -/
def execute_rec_order (rec : Rec) (limit_price : ℚ)
    (fill : Except String FillR) (hasNotifier : Bool) : List RecEffect :=
  RecEffect.placeBuyLmt
      (max 1 (pyTrunc (rec.position_size_usd / (limit_price * 100)))) limit_price ::
    match fill with
    | .error e => [RecEffect.updateRecStatus rec.id "failed" (some e)]
    | .ok fill =>
      RecEffect.insertPositionRec rec.id fill.quantity fill.avg_fill_price
          (fill.avg_fill_price * fill.quantity * 100) ::
        RecEffect.updateRecStatus rec.id "filled" none ::
        (if hasNotifier then
          [RecEffect.notifierSend ("*Filled* rec #" ++ toString rec.id ++ ": "
            ++ toString fill.quantity ++ "x " ++ rec.ticker ++ " " ++ rec.right
            ++ " " ++ toString rec.strike ++ " @ $" ++ toString fill.avg_fill_price)]
        else [])

/-- The part of `_execute_recommendation` after the allocation check passes:
fetch a quote, fall back to the thesis entry midpoint on a non-positive mid,
fail on `Zero or negative quote`, else place and persist. -/
def execute_rec_quote (rec : Rec) (quote : Except String ℚ)
    (fill : Except String FillR) (hasNotifier : Bool) : List RecEffect :=
  match quote with
  | .error e => [RecEffect.updateRecStatus rec.id "failed" (some e)]
  | .ok mid =>
    if mid ≤ 0 then
      if (rec.entry_price_low + rec.entry_price_high) / 2 > 0 then
        execute_rec_order rec ((rec.entry_price_low + rec.entry_price_high) / 2)
          fill hasNotifier
      else
        [RecEffect.updateRecStatus rec.id "failed" (some "Zero or negative quote")]
    else
      execute_rec_order rec mid fill hasNotifier

/-- `PositionManager._execute_recommendation` (position_manager.py).
`account` is `account_summary`'s `net_liquidation` (or the raised error),
`exposure` the response to `get_total_options_exposure`, `quote` the mid of
`get_option_quote` (a NaN mid makes the `<= 0` comparison raise, landing in
the `.error` case), `fill` the `place_order` response.  Any raise is caught
by the enclosing handler, which records status `failed` with `str(e)`. -/
def execute_recommendation (rec : Rec) (account : Except String ℚ)
    (exposure : ℚ) (quote : Except String ℚ) (fill : Except String FillR)
    (config : ManagerConfig) (hasNotifier : Bool) : List RecEffect :=
  RecEffect.updateRecStatus rec.id "executing" none ::
    match account with
    | .error e => [RecEffect.updateRecStatus rec.id "failed" (some e)]
    | .ok equity =>
      if (check_allocation rec.position_size_usd exposure equity config).1 = false then
        [RecEffect.updateRecStatus rec.id "failed"
          (some (check_allocation rec.position_size_usd exposure equity config).2)]
      else
        execute_rec_quote rec quote fill hasNotifier

/-! ## openclaw/engine.py — WorkflowEngine

The step context is a Pydantic model in Python; the embedding is polymorphic
in the context type `α`.  An agent call is nondeterministic (an LLM), so the
environment supplies a behaviour oracle mapping (agent name, step id, attempt
index, input context) to the returned output or the raised exception's text.
Wall-clock step durations are not modelled. -/

/-- `OnFail` (openclaw/engine.py). -/
inductive OnFail where
  | RETRY
  | ESCALATE
  | ABORT
deriving DecidableEq, Repr

/-- `StepDef` (openclaw/engine.py); `input_schema` / `output_schema` are
Pydantic classes used only for (de)serialisation and are not modelled. -/
structure StepDef (α : Type) where
  id : String
  agent : String
  validate : α → Bool
  max_retries : Nat := 2
  on_fail : OnFail := .ESCALATE

/-- `WorkflowDef` (openclaw/engine.py). -/
structure WorkflowDef (α : Type) where
  id : String
  name : String
  steps : List (StepDef α) := []

/-- `StepResult` (openclaw/engine.py), without the unmodelled
`duration_ms`. -/
structure StepResult (α : Type) where
  step_id : String
  agent : String
  attempt : Nat
  output : Option α
  passed_gate : Bool
  error : Option String := none

/-- The behaviour oracle for `agent.execute`: agent name, step id, attempt
index, input context ↦ output or raised error text. -/
def AgentBehavior (α : Type) : Type :=
  String → String → Nat → α → Except String α

/-- One database/notifier effect performed by `WorkflowEngine.run`, in
program order. -/
inductive WfEffect (α : Type) where
  | createRun (workflow_id : String)
  | logStep (run_id : Int) (step_id : String) (agent : String) (attempt : Nat)
      (passed : Bool)
  | completeRun (run_id : Int) (status : String)
  | escalate (workflow_name : String) (step_id : String) (context : α)
      (error : Option String)
deriving DecidableEq

/-- The body of one attempt inside `WorkflowEngine._execute_step`: call the
agent, validate, catch. -/
def attemptRun {α : Type} (behavior : AgentBehavior α) (step : StepDef α)
    (ctx : α) (attempt : Nat) : Option α × Bool × Option String :=
  match behavior step.agent step.id attempt ctx with
  | .ok output => (some output, step.validate output, none)
  | .error e => (none, false, some e)

/-- Whether the attempt with the given index passes the gate. -/
def attemptPassed {α : Type} (behavior : AgentBehavior α) (step : StepDef α)
    (ctx : α) (attempt : Nat) : Bool :=
  (attemptRun behavior step ctx attempt).2.1

/-- The retry loop of `_execute_step`, stripped of the run id: returns the
`(attempt, passed_gate)` pairs logged (one per attempt actually made, in
order) and the returned `StepResult`.  `n` is the number of attempts still
allowed, `attempt` the next attempt index, `last` the last failed result. -/
def execStepCore {α : Type} (behavior : AgentBehavior α) (step : StepDef α)
    (ctx : α) : Nat → Nat → Option (StepResult α) →
    List (Nat × Bool) × StepResult α
  | 0, _, last =>
    ([], last.getD { step_id := step.id, agent := step.agent,
                     attempt := step.max_retries, output := none,
                     passed_gate := false, error := some "All retries exhausted" })
  | n + 1, attempt, _ =>
    let a := attemptRun behavior step ctx attempt
    let result : StepResult α :=
      { step_id := step.id, agent := step.agent, attempt := attempt,
        output := a.1, passed_gate := a.2.1, error := a.2.2 }
    if a.2.1 then ([(attempt, a.2.1)], result)
    else
      let rest := execStepCore behavior step ctx n (attempt + 1) (some result)
      ((attempt, a.2.1) :: rest.1, rest.2)

/-- `WorkflowEngine._execute_step` (openclaw/engine.py): up to
`max_retries + 1` attempts, each logged via `db.log_step`. -/
def execute_step {α : Type} (behavior : AgentBehavior α) (run_id : Int)
    (step : StepDef α) (ctx : α) : List (WfEffect α) × StepResult α :=
  let core := execStepCore behavior step ctx (step.max_retries + 1) 0 none
  (core.1.map (fun p => WfEffect.logStep run_id step.id step.agent p.1 p.2),
   core.2)

/-- The outcome of `WorkflowEngine.run`: a raised exception (unknown agent),
`None` (a step exhausted its retries), or the final context. -/
inductive RunOutcome (α : Type) where
  | raised (msg : String)
  | failedNone
  | success (final : α)
deriving DecidableEq

/-- The step loop inside `WorkflowEngine.run` (openclaw/engine.py): check
registration, execute the step, advance or fail the run. -/
def runSteps {α : Type} (agents : List String) (behavior : AgentBehavior α)
    (hasNotifier : Bool) (wf_name : String) (run_id : Int) :
    List (StepDef α) → α → List (WfEffect α) × RunOutcome α
  | [], ctx => ([WfEffect.completeRun run_id "completed"], .success ctx)
  | step :: rest, ctx =>
    if step.agent ∈ agents then
      let ex := execute_step behavior run_id step ctx
      let failTail : List (WfEffect α) :=
        (if step.on_fail = OnFail.ESCALATE ∧ hasNotifier then
          [WfEffect.escalate wf_name step.id ctx ex.2.error]
        else []) ++ [WfEffect.completeRun run_id "failed"]
      if ex.2.passed_gate then
        match ex.2.output with
        | some output =>
          let rec' := runSteps agents behavior hasNotifier wf_name run_id rest output
          (ex.1 ++ rec'.1, rec'.2)
        | none => (ex.1 ++ failTail, .failedNone)
      else (ex.1 ++ failTail, .failedNone)
    else ([], .raised ("Agent not registered: " ++ step.agent))

/-- `WorkflowEngine.run` (openclaw/engine.py).  `run_id` is the id
`create_workflow_run` returns; the run row is created first, before any
step — and before the agent-registration check. -/
def WorkflowEngine.run {α : Type} (agents : List String)
    (behavior : AgentBehavior α) (hasNotifier : Bool) (run_id : Int)
    (workflow : WorkflowDef α) (initial_input : α) :
    List (WfEffect α) × RunOutcome α :=
  let res := runSteps agents behavior hasNotifier workflow.name run_id
    workflow.steps initial_input
  (WfEffect.createRun workflow.id :: res.1, res.2)

/-! ### Derived, specification-side readings of the engine -/

/-- Is this effect a `create_workflow_run` call? -/
def WfEffect.isCreate {α : Type} : WfEffect α → Bool
  | .createRun _ => true
  | _ => false

/-- Is this effect a `complete_workflow_run` call? -/
def WfEffect.isComplete {α : Type} : WfEffect α → Bool
  | .completeRun _ _ => true
  | _ => false

/-- Is this effect a `notifier.escalate` call? -/
def WfEffect.isEscalate {α : Type} : WfEffect α → Bool
  | .escalate _ _ _ _ => true
  | _ => false

/-- Is this effect a `db.log_step` call? -/
def WfEffect.isLog {α : Type} : WfEffect α → Bool
  | .logStep _ _ _ _ _ => true
  | _ => false

/-- Number of `create_workflow_run` calls in an effect list. -/
def countCreate {α : Type} (effs : List (WfEffect α)) : Nat :=
  effs.countP WfEffect.isCreate

/-- Number of `complete_workflow_run` calls in an effect list. -/
def countComplete {α : Type} (effs : List (WfEffect α)) : Nat :=
  effs.countP WfEffect.isComplete

/-- Number of `notifier.escalate` calls in an effect list. -/
def countEscalate {α : Type} (effs : List (WfEffect α)) : Nat :=
  effs.countP WfEffect.isEscalate

/-- Number of `db.log_step` calls in an effect list. -/
def countLogs {α : Type} (effs : List (WfEffect α)) : Nat :=
  effs.countP WfEffect.isLog

/-- How many attempts `_execute_step` actually makes for `step` on `ctx`:
the first passing attempt index plus one, else `max_retries + 1`. -/
def attemptsMadeCore {α : Type} (behavior : AgentBehavior α) (step : StepDef α)
    (ctx : α) : Nat → Nat → Nat
  | 0, _ => 0
  | n + 1, attempt =>
    if attemptPassed behavior step ctx attempt then 1
    else attemptsMadeCore behavior step ctx n (attempt + 1) + 1

/-- Attempts actually made by `_execute_step` for `step` on input `ctx`. -/
def attemptsMade {α : Type} (behavior : AgentBehavior α) (step : StepDef α)
    (ctx : α) : Nat :=
  attemptsMadeCore behavior step ctx (step.max_retries + 1) 0

/-- The result `_execute_step` returns for `step` on input `ctx`. -/
def stepResultOf {α : Type} (behavior : AgentBehavior α) (step : StepDef α)
    (ctx : α) : StepResult α :=
  (execStepCore behavior step ctx (step.max_retries + 1) 0 none).2

/-- The context after running a list of steps, `none` as soon as one fails
its gate (mirrors `result.passed_gate and result.output is not None`). -/
def ctxThrough {α : Type} (behavior : AgentBehavior α) :
    List (StepDef α) → α → Option α
  | [], ctx => some ctx
  | step :: rest, ctx =>
    let r := stepResultOf behavior step ctx
    if r.passed_gate then
      match r.output with
      | some output => ctxThrough behavior rest output
      | none => none
    else none

/-- The `log_step` effects a list of fully passing steps emits. -/
def runLogs {α : Type} (behavior : AgentBehavior α) (run_id : Int) :
    List (StepDef α) → α → List (WfEffect α)
  | [], _ => []
  | step :: rest, ctx =>
    let ex := execute_step behavior run_id step ctx
    ex.1 ++
      (match ctxThrough behavior [step] ctx with
       | some ctx' => runLogs behavior run_id rest ctx'
       | none => [])

/-! ## ib/position_manager.py — reconciliation (`_sync_positions`)

The `options_positions` table is a list of rows in `opened_at` order (new
rows are appended); `next_id` is the id the next `INSERT ... RETURNING id`
produces.  Recording the closed position's outcome on the originating thesis
(`get_thesis_id_for_position` / `update_thesis_outcome`) only touches thesis
rows, not position rows, and is not modelled here. -/

/-- A row of `options_positions` (db/repositories.py). -/
structure PositionRow where
  id : Int
  recommendation_id : Option Int := none
  ticker : String
  right : String
  strike : ℚ
  expiry : Int
  quantity : Int
  avg_fill_price : ℚ
  current_price : ℚ
  cost_basis : ℚ
  unrealized_pnl : ℚ
  realized_pnl : ℚ := 0
  status : String := "open"
  close_reason : Option String := none
  ib_con_id : Option Int := none
deriving DecidableEq, Repr

/-- `IBPortfolioItem` (ib/types.py), the broker's view of one position. -/
structure IBPortfolioItem where
  con_id : Int
  symbol : String
  sec_type : String
  right : String
  strike : ℚ
  expiry : Int
  position : Int
  avg_cost : ℚ
  market_price : ℚ
  unrealized_pnl : ℚ
deriving DecidableEq, Repr

/-- The `options_positions` table plus the id counter. -/
structure DB where
  rows : List PositionRow
  next_id : Int
deriving DecidableEq, Repr

/-- `get_open_positions` (db/repositories.py): open rows in `opened_at`
order. -/
def DB.openRows (db : DB) : List PositionRow :=
  db.rows.filter fun r => r.status == "open"

/-- `update_position_price` (db/repositories.py). -/
def DB.update_position_price (db : DB) (pos_id : Int) (price pnl : ℚ) : DB :=
  { db with rows := db.rows.map fun r =>
      if r.id = pos_id then { r with current_price := price, unrealized_pnl := pnl }
      else r }

/-- `update_position_con_id` (db/repositories.py). -/
def DB.update_position_con_id (db : DB) (pos_id : Int) (con_id : Int) : DB :=
  { db with rows := db.rows.map fun r =>
      if r.id = pos_id then { r with ib_con_id := some con_id } else r }

/-- `close_position` (db/repositories.py). -/
def DB.close_position (db : DB) (pos_id : Int) (reason : String)
    (realized : ℚ) : DB :=
  { db with rows := db.rows.map fun r =>
      if r.id = pos_id then
        { r with status := "closed", close_reason := some reason,
                 realized_pnl := realized }
      else r }

/-- `insert_position` (db/repositories.py): append with a fresh id, status
`open`; returns the new id. -/
def DB.insert_position (db : DB) (row : PositionRow) : DB × Int :=
  ({ rows := db.rows ++ [{ row with id := db.next_id, status := "open" }],
     next_id := db.next_id + 1 },
   db.next_id)

/-- `find_position_by_contract` (db/repositories.py): newest open row with
these contract details (`ORDER BY opened_at DESC LIMIT 1`). -/
def DB.find_position_by_contract (db : DB) (ticker : String) (right : String)
    (strike : ℚ) (expiry : Int) : Option PositionRow :=
  (db.rows.filter fun r =>
    r.ticker == ticker && r.right == right && r.strike == strike
      && r.expiry == expiry && r.status == "open").getLast?

/-- Python truthiness of a nullable integer column: `None` and `0` are
falsy. -/
def truthyCon : Option Int → Bool
  | none => false
  | some c => c != 0

/-- `db_by_con_id.get(con_id)`: the dict comprehension keeps only truthy
con ids, later rows overwriting earlier ones. -/
def dictFind (snapshot : List PositionRow) (con_id : Int) : Option PositionRow :=
  (snapshot.filter fun r => truthyCon r.ib_con_id && r.ib_con_id == some con_id).getLast?

/-- Counts of the side effects one `_sync_positions` run performs. -/
structure SyncStats where
  price_updates : Nat := 0
  con_id_backfills : Nat := 0
  inserts : Nat := 0
  closes : Nat := 0
deriving DecidableEq, Repr

/-- The body of the per-broker-item loop of `_sync_positions`: match by
con id against the snapshot dict, else by contract against the live table
(backfilling the con id), else insert an external position. -/
def syncOneItem (snapshot : List PositionRow)
    (st : DB × List Int × SyncStats) (i : IBPortfolioItem) :
    DB × List Int × SyncStats :=
  let db := st.1
  let seen := st.2.1
  let stats := st.2.2
  match dictFind snapshot i.con_id with
  | some p =>
    (db.update_position_price p.id i.market_price i.unrealized_pnl,
     p.id :: seen,
     { stats with price_updates := stats.price_updates + 1 })
  | none =>
    match db.find_position_by_contract i.symbol i.right i.strike i.expiry with
    | some p =>
      ((db.update_position_con_id p.id i.con_id).update_position_price p.id
         i.market_price i.unrealized_pnl,
       p.id :: seen,
       { stats with price_updates := stats.price_updates + 1,
                    con_id_backfills := stats.con_id_backfills + 1 })
    | none =>
      let cost_basis := i.avg_cost * (|i.position| : Int) * 100
      let ins := db.insert_position
        { id := 0, recommendation_id := none, ticker := i.symbol,
          right := i.right, strike := i.strike, expiry := i.expiry,
          quantity := |i.position|, avg_fill_price := i.avg_cost,
          current_price := i.market_price, cost_basis := cost_basis,
          unrealized_pnl := i.unrealized_pnl, ib_con_id := some i.con_id }
      (ins.1, seen, { stats with inserts := stats.inserts + 1 })

/-- The stale-row loop of `_sync_positions`: a snapshot row that was not
seen and whose (truthy) con id is gone from the broker portfolio is closed
with reason `external` and zero realized P&L. -/
def closeStale (ib_con_ids : List Int) (seen : List Int)
    (st : DB × SyncStats) (p : PositionRow) : DB × SyncStats :=
  if p.id ∈ seen then st
  else
    match p.ib_con_id with
    | none => st
    | some c =>
      if c ≠ 0 ∧ c ∉ ib_con_ids then
        (st.1.close_position p.id "external" 0,
         { st.2 with closes := st.2.closes + 1 })
      else st

/-- The broker items `_sync_positions` keeps: long options only. -/
def ibOptions (ib_items : List IBPortfolioItem) : List IBPortfolioItem :=
  ib_items.filter fun i => i.sec_type == "OPT" && decide (0 < i.position)

/-- `PositionManager._sync_positions` (position_manager.py): reconcile the
DB with the broker portfolio (`.error` when `self.ib.portfolio()` raises, in
which case the sync is skipped). -/
def sync_positions (db : DB)
    (portfolio : Except String (List IBPortfolioItem)) : DB × SyncStats :=
  match portfolio with
  | .error _ => (db, {})
  | .ok ib_items =>
    let ib_options := ibOptions ib_items
    let db_positions := db.openRows
    let looped := ib_options.foldl (syncOneItem db_positions) (db, [], {})
    let ib_con_ids := ib_options.map (·.con_id)
    db_positions.foldl (closeStale ib_con_ids looped.2.1) (looped.1, looped.2.2)

/-- The error of the last attempt `_execute_step` makes when every attempt
fails (attempt index `max_retries`). -/
def lastError {α : Type} (behavior : AgentBehavior α) (step : StepDef α)
    (ctx : α) : Option String :=
  (attemptRun behavior step ctx step.max_retries).2.2

/-- The step-log rows for a step that fails its gate on every one of the
`max_retries + 1` attempts. -/
def failLogs {α : Type} (behavior : AgentBehavior α) (run_id : Int)
    (step : StepDef α) (ctx : α) : List (WfEffect α) :=
  (List.range (step.max_retries + 1)).map fun a =>
    WfEffect.logStep run_id step.id step.agent a (attemptPassed behavior step ctx a)

/-- A DB row records the same option contract a broker item reports. -/
def contractEq (r : PositionRow) (i : IBPortfolioItem) : Prop :=
  r.ticker = i.symbol ∧ r.right = i.right ∧ r.strike = i.strike ∧ r.expiry = i.expiry

instance (r : PositionRow) (i : IBPortfolioItem) : Decidable (contractEq r i) :=
  inferInstanceAs (Decidable (r.ticker = i.symbol ∧ r.right = i.right ∧
    r.strike = i.strike ∧ r.expiry = i.expiry))

/-- Some open row of the table records this broker item's contract. -/
def goodFor (db : DB) (i : IBPortfolioItem) : Prop :=
  ∃ r ∈ db.rows, r.status = "open" ∧ contractEq r i

/-- The ids of a snapshot's rows. -/
def snapIds (snap : List PositionRow) : List Int := snap.map (·.id)

/-- `goodFor` strengthened with immunity from the stale-row close loop: the
witness row was seen (matched) or is not a snapshot row at all. -/
def goodSeen (snap : List PositionRow) (db : DB) (seen : List Int)
    (i : IBPortfolioItem) : Prop :=
  ∃ r ∈ db.rows, r.status = "open" ∧ contractEq r i ∧
    (r.id ∈ seen ∨ r.id ∉ snapIds snap)

/-- Mid-reconciliation invariant: every open row's truthy con id either
already belongs to the portfolio, or is the row's untouched snapshot value
and the row was not seen (so the close loop will handle it). -/
def conLinked (cons : List Int) (snap : List PositionRow) (seen : List Int)
    (db : DB) : Prop :=
  ∀ r ∈ db.rows, r.status = "open" → ∀ cc : Int, r.ib_con_id = some cc →
    cc ≠ 0 → (cc ∈ cons ∨
      ∃ r0 ∈ snap, r0.id = r.id ∧ r0.ib_con_id = some cc ∧ r.id ∉ seen)

/-- Every snapshot row still has a live row with its id, contract fields and
status (reconciliation never edits contract fields or reopens/closes rows
inside the per-item loop). -/
def tracksSnap (snap : List PositionRow) (db : DB) : Prop :=
  ∀ r0 ∈ snap, ∃ r ∈ db.rows, r.id = r0.id ∧ r.ticker = r0.ticker ∧
    r.right = r0.right ∧ r.strike = r0.strike ∧ r.expiry = r0.expiry ∧
    r.status = r0.status

/-- Post-reconciliation invariant: every open row's truthy con id belongs to
the portfolio. -/
def conInv (cons : List Int) (db : DB) : Prop :=
  ∀ r ∈ db.rows, r.status = "open" → ∀ cc : Int, r.ib_con_id = some cc →
    cc ≠ 0 → cc ∈ cons

/-! ## Concrete instances used by witnesses and counterexamples -/

/-- A losing call 10 days from expiry (day numbers: expiry is day 10). -/
def posLateLoser : OptionsPosition :=
  { id := 1, ticker := "NVDA", right := "call", strike := 140, expiry := 10,
    quantity := 1, avg_fill_price := 9, current_price := 8,
    cost_basis := 1000, unrealized_pnl := -100 }

/-- A position with zero cost basis and a large negative unrealized P&L. -/
def posZeroCost : OptionsPosition :=
  { posLateLoser with cost_basis := 0, unrealized_pnl := -5000 }

/-- A position breaching both the hard stop (−60%) and, 5 days before
expiry, the time stop. -/
def posBothBreach : OptionsPosition :=
  { id := 2, ticker := "NVDA", right := "call", strike := 140, expiry := 5,
    quantity := 1, avg_fill_price := 9, current_price := 3,
    cost_basis := 1000, unrealized_pnl := -600 }

/-- Four contracts up 60%. -/
def pos4at60 : OptionsPosition :=
  { id := 1, ticker := "AAPL", right := "call", strike := 140, expiry := 30,
    quantity := 4, avg_fill_price := 5/2, current_price := 4,
    cost_basis := 1000, unrealized_pnl := 600 }

/-- A single contract up 60%. -/
def pos1at60 : OptionsPosition :=
  { id := 3, ticker := "AAPL", right := "call", strike := 140, expiry := 30,
    quantity := 1, avg_fill_price := 5/2, current_price := 4,
    cost_basis := 250, unrealized_pnl := 150 }

/-- An open row whose stored broker-reference id (10) belongs to one broker
item while its contract fields match a different one. -/
def rowMismatch : PositionRow :=
  { id := 1, ticker := "X", right := "call", strike := 5, expiry := 100,
    quantity := 1, avg_fill_price := 1, current_price := 1,
    cost_basis := 100, unrealized_pnl := 0, ib_con_id := some 10 }

/-- Broker item with con id 10 but contract `Y 6 call 100`. -/
def itemYat10 : IBPortfolioItem :=
  { con_id := 10, symbol := "Y", sec_type := "OPT", right := "call",
    strike := 6, expiry := 100, position := 1, avg_cost := 1,
    market_price := 1, unrealized_pnl := 0 }

/-- Broker item with con id 20 and contract `X 5 call 100` — the contract
`rowMismatch` stores. -/
def itemXat20 : IBPortfolioItem :=
  { con_id := 20, symbol := "X", sec_type := "OPT", right := "call",
    strike := 5, expiry := 100, position := 1, avg_cost := 1,
    market_price := 1, unrealized_pnl := 0 }

/-- The one-row table holding `rowMismatch`. -/
def dbMismatch : DB := { rows := [rowMismatch], next_id := 2 }

/-- Broker item with con id 10 and contract `X 5 call 100` — consistent with
`rowMismatch`'s stored reference id and contract. -/
def itemXat10 : IBPortfolioItem :=
  { con_id := 10, symbol := "X", sec_type := "OPT", right := "call",
    strike := 5, expiry := 100, position := 1, avg_cost := 1,
    market_price := 1, unrealized_pnl := 0 }

/-- An approved recommendation sized at $5000 — over the cap when current
exposure is $18000 of $200000 equity. -/
def recDemo : Rec :=
  { id := 1, ticker := "NVDA", right := "call", strike := 140, expiry := 30,
    entry_price_low := 1, entry_price_high := 2, position_size_usd := 5000 }

/-- A one-contract BUY fill at $1. -/
def fillDemo : FillR := { quantity := 1, avg_fill_price := 1 }

/-- A 3-step workflow over `Nat` contexts whose step 2 fails validation on
both of its attempts (`max_retries = 1`, `on_fail = escalate`). -/
def wfStep1 : StepDef Nat :=
  { id := "s1", agent := "a1", validate := fun _ => true }

/-- See `wfStep1`: the failing second step. -/
def wfStep2 : StepDef Nat :=
  { id := "s2", agent := "a2", validate := fun _ => false, max_retries := 1,
    on_fail := .ESCALATE }

/-- See `wfStep1`: the unreached third step. -/
def wfStep3 : StepDef Nat :=
  { id := "s3", agent := "a3", validate := fun _ => true }

/-- The 3-step workflow of the end-to-end scenario. -/
def wfDemo : WorkflowDef Nat :=
  { id := "daily", name := "Daily", steps := [wfStep1, wfStep2, wfStep3] }

/-- A deterministic behaviour oracle: every agent call returns the input
context plus one. -/
def behaviorDemo : AgentBehavior Nat := fun _ _ _ ctx => .ok (ctx + 1)

/-- A one-step workflow over `Nat` contexts naming an agent that is never
registered. -/
def wfGhost : WorkflowDef Nat :=
  { id := "wf1", name := "Ghost",
    steps := [{ id := "s1", agent := "ghost", validate := fun _ => true }] }

/-! ## Shared helper lemmas -/

/-- A string with a non-empty left part is non-empty. -/
theorem append_ne_empty_left (a b : String) (h : a ≠ "") : a ++ b ≠ "" := by
  intro hc
  apply h
  have hl := congrArg String.length hc
  rw [String.length_append] at hl
  have h0 : ("" : String).length = 0 := rfl
  rw [h0] at hl
  have ha : a.length = 0 := by omega
  cases a with
  | mk data =>
    cases data with
    | nil => rfl
    | cons x xs => simp [String.length] at ha

/-- `check_allocation` never returns an empty reason string. -/
theorem check_allocation_reason_ne_empty (n cur e : ℚ) (c : ManagerConfig) :
    (check_allocation n cur e c).2 ≠ "" := by
  unfold check_allocation
  simp only [apply_ite Prod.snd]
  split_ifs
  all_goals (repeat apply append_ne_empty_left)
  all_goals decide

/-- `check_allocation` approves exactly when equity is positive and the
post-trade exposure stays within the allocation cap. -/
theorem check_allocation_approved_iff (n cur e : ℚ) (c : ManagerConfig) :
    (check_allocation n cur e c).1 = true ↔
      0 < e ∧ cur + n ≤ e * c.max_allocation_pct / 100 := by
  simp only [check_allocation]
  split_ifs with he hov hut
  · exact iff_of_false (by simp) (fun h => absurd h.1 (not_lt.mpr he))
  · exact iff_of_false (by simp) (fun h => absurd hov (not_lt.mpr h.2))
  · exact iff_of_true rfl ⟨lt_of_not_ge he, le_of_not_gt hov⟩
  · exact iff_of_true rfl ⟨lt_of_not_ge he, le_of_not_gt hov⟩

/-! ## Claims about the RulesEngine -/

/-- C2 (counterexample): `check_time_stop` is NOT a function of position and
config alone — the same losing position gives different answers when the
hidden `date.today()` read is 5 days before expiry versus 10 days before. -/
theorem check_time_stop_depends_on_today :
    check_time_stop posLateLoser {} 5 ≠ check_time_stop posLateLoser {} 0 := by
  decide

/-- C2 (amended): every RulesEngine function is deterministic in its actual
inputs — position, config, and, for `check_time_stop` / `check_stop_rules`,
the current date read by `days_to_expiry`; `check_hard_stop`,
`check_profit_targets` and `check_allocation` take no date at all. -/
theorem rules_deterministic (p q : OptionsPosition) (c d : ManagerConfig)
    (t t' : Int) (hp : p = q) (hc : c = d) (ht : t = t') :
    check_hard_stop p c = check_hard_stop q d ∧
    check_time_stop p c t = check_time_stop q d t' ∧
    check_stop_rules p c t = check_stop_rules q d t' ∧
    check_profit_targets p c = check_profit_targets q d ∧
    ∀ n cur e : ℚ, check_allocation n cur e c = check_allocation n cur e d := by
  subst hp; subst hc; subst ht
  exact ⟨rfl, rfl, rfl, rfl, fun _ _ _ => rfl⟩

/-- Witness for `rules_deterministic` at a concrete input. -/
theorem rules_deterministic_witness :
    check_hard_stop posLateLoser {} = check_hard_stop posLateLoser {} ∧
    check_time_stop posLateLoser {} 5 = check_time_stop posLateLoser {} 5 ∧
    check_stop_rules posLateLoser {} 5 = check_stop_rules posLateLoser {} 5 ∧
    check_profit_targets posLateLoser {} = check_profit_targets posLateLoser {} ∧
    ∀ n cur e : ℚ, check_allocation n cur e {} = check_allocation n cur e {} :=
  rules_deterministic posLateLoser posLateLoser {} {} 5 5 rfl rfl rfl

/-- C3: `check_stop_rules` checks the hard stop before the time stop; on a
position breaching both (the second conjunct shows the time stop alone would
fire) the result is the close-all HARD_STOP action, never TIME_STOP. -/
theorem check_stop_rules_hard_stop_wins (pos : OptionsPosition)
    (config : ManagerConfig) (today : Int)
    (hH : -pos.pnl_pct ≥ config.hard_stop_pct)
    (hT : pos.days_to_expiry today ≤ config.time_stop_dte ∧
          pos.unrealized_pnl < 0) :
    check_time_stop pos config today =
      some { close_all := true, quantity := 0, reason := .TIME_STOP } ∧
    check_stop_rules pos config today =
      some { close_all := true, quantity := 0, reason := .HARD_STOP } := by
  have h1 : check_hard_stop pos config =
      some { close_all := true, quantity := 0, reason := .HARD_STOP } := by
    unfold check_hard_stop
    exact if_pos hH
  have h2 : check_time_stop pos config today =
      some { close_all := true, quantity := 0, reason := .TIME_STOP } := by
    unfold check_time_stop
    exact if_pos hT
  refine ⟨h2, ?_⟩
  unfold check_stop_rules
  rw [h1]

/-- Witness for `check_stop_rules_hard_stop_wins`: −60% P&L, 5 days to
expiry, default thresholds. -/
theorem check_stop_rules_hard_stop_wins_witness :
    check_time_stop posBothBreach {} 0 =
      some { close_all := true, quantity := 0, reason := .TIME_STOP } ∧
    check_stop_rules posBothBreach {} 0 =
      some { close_all := true, quantity := 0, reason := .HARD_STOP } :=
  check_stop_rules_hard_stop_wins posBothBreach {} 0
    (by norm_num [posBothBreach, OptionsPosition.pnl_pct])
    ⟨by decide, by decide⟩

/-- C4: `check_profit_targets` returns at most one action — close-all when
P&L reaches target 2, else a sale of exactly `quantity / 2` (floor) when P&L
reaches target 1 and more than one contract is held, else nothing; with 4
contracts at +60% it sells exactly 2 and `_execute_action` persists
remaining quantity 2, while a single contract at +60% yields no action. -/
theorem check_profit_targets_spec :
    (∀ (pos : OptionsPosition) (config : ManagerConfig),
      check_profit_targets pos config =
        if pos.pnl_pct ≥ config.profit_target_2_pct then
          some { close_all := true, quantity := 0, reason := .PROFIT_TARGET }
        else if pos.pnl_pct ≥ config.profit_target_1_pct ∧ pos.quantity > 1 then
          some { close_all := false, quantity := pos.quantity / 2,
                 reason := .PROFIT_TARGET }
        else none) ∧
    check_profit_targets pos4at60 {} =
      some { close_all := false, quantity := 2, reason := .PROFIT_TARGET } ∧
    execute_action pos4at60
        { close_all := false, quantity := 2, reason := .PROFIT_TARGET }
        (.ok 4) none false =
      [.placeSellMkt 2, .partialClosePosition 1 2 300] ∧
    check_profit_targets pos1at60 {} = none := by
  refine ⟨?_, by norm_num [check_profit_targets, pos4at60, OptionsPosition.pnl_pct],
    by norm_num [execute_action, pos4at60],
    by norm_num [check_profit_targets, pos1at60, OptionsPosition.pnl_pct]⟩
  intro pos config
  simp only [check_profit_targets]
  split_ifs with h2 h1 hh
  · rfl
  · rfl
  · exfalso
    have hq : (1 : Int) < pos.quantity := h1.2
    omega
  · rfl

/-- C5: `check_allocation` rejects on non-positive equity, otherwise rejects
exactly when the post-trade exposure strictly exceeds
`equity × max_allocation_pct / 100` (hitting the cap exactly is approved),
always with a non-empty reason; the spec's two concrete examples. -/
theorem check_allocation_spec :
    (∀ (n cur e : ℚ) (c : ManagerConfig),
      (check_allocation n cur e c).1 = true ↔
        0 < e ∧ cur + n ≤ e * c.max_allocation_pct / 100) ∧
    (∀ (n cur e : ℚ) (c : ManagerConfig), (check_allocation n cur e c).2 ≠ "") ∧
    (check_allocation 2000 5000 200000 {}).1 = true ∧
    (check_allocation 5000 18000 200000 {}).1 = false := by
  exact ⟨check_allocation_approved_iff, check_allocation_reason_ne_empty,
    by norm_num [check_allocation], by norm_num [check_allocation]⟩

/-- C10: a position whose cost basis is zero reports `pnl_pct = 0`, so with
positive thresholds (the defaults are 50/50/100) neither the hard stop nor
any profit target ever fires for it, however negative or positive its
unrealized P&L. -/
theorem zero_cost_basis_never_acts (pos : OptionsPosition)
    (config : ManagerConfig) (h0 : pos.cost_basis = 0)
    (hH : 0 < config.hard_stop_pct) (h1 : 0 < config.profit_target_1_pct)
    (h2 : 0 < config.profit_target_2_pct) :
    pos.pnl_pct = 0 ∧ check_hard_stop pos config = none ∧
    check_profit_targets pos config = none := by
  have hp : pos.pnl_pct = 0 := by
    unfold OptionsPosition.pnl_pct
    simp [h0]
  refine ⟨hp, ?_, ?_⟩
  · have hno : ¬(-pos.pnl_pct ≥ config.hard_stop_pct) := by
      rw [hp]
      simpa using hH
    unfold check_hard_stop
    rw [if_neg hno]
  · have c2 : ¬(pos.pnl_pct ≥ config.profit_target_2_pct) := by
      rw [hp]
      simpa using h2
    have c1 : ¬(pos.pnl_pct ≥ config.profit_target_1_pct ∧ pos.quantity > 1) := by
      rw [hp]
      exact fun h => absurd h.1 (by simpa using h1)
    simp only [check_profit_targets]
    rw [if_neg c2, if_neg c1]

/-- Witness for `zero_cost_basis_never_acts`: zero cost basis and a large
negative P&L under the default thresholds. -/
theorem zero_cost_basis_never_acts_witness :
    OptionsPosition.pnl_pct posZeroCost = 0 ∧
    check_hard_stop posZeroCost {} = none ∧
    check_profit_targets posZeroCost {} = none :=
  zero_cost_basis_never_acts posZeroCost {} (by decide) (by decide)
    (by decide) (by decide)

/-! ## Claims about the PositionManager monitoring path -/

/-- C6: during re-pricing, a quote whose mid is missing, NaN, non-positive —
or whose fetch raised — causes the position to be skipped entirely: no price
update is persisted and no stop/target rule runs, so no close or partial
close can be triggered. -/
theorem bad_quote_skips_everything (pos : OptionsPosition)
    (quote : Except String MidVal) (today : Int) (config : ManagerConfig)
    (sell_fill : Except String ℚ) (thesis_id : Option Int)
    (hasNotifier : Bool)
    (hbad : ∀ q : ℚ, quote = .ok (.val q) → q ≤ 0) :
    update_and_check pos quote today config sell_fill thesis_id hasNotifier
      = [] := by
  unfold update_and_check
  match quote with
  | .error e => rfl
  | .ok .null => rfl
  | .ok .nan => rfl
  | .ok (.val q) =>
    have hq : q ≤ 0 := hbad q rfl
    simp [hq]

/-- Witness for `bad_quote_skips_everything`: a zero mid. -/
theorem bad_quote_skips_everything_witness :
    update_and_check posLateLoser (.ok (.val 0)) 5 {} (.ok 1) none true = [] :=
  bad_quote_skips_everything posLateLoser (.ok (.val 0)) 5 {} (.ok 1) none
    true (fun q hq => by cases hq; exact le_refl 0)

/-- In the order-placement tail, a `failed` status can only carry the
`place_order` exception's text, and never an absent reason. -/
theorem execute_rec_order_failed_reasons (rec : Rec) (limit_price : ℚ)
    (fill : Except String FillR) (hasNotifier : Bool) :
    (∀ r, RecEffect.updateRecStatus rec.id "failed" (some r) ∈
        execute_rec_order rec limit_price fill hasNotifier →
      fill = .error r) ∧
    RecEffect.updateRecStatus rec.id "failed" none ∉
      execute_rec_order rec limit_price fill hasNotifier := by
  rcases fill with e | f
  · simp only [execute_rec_order]
    constructor
    · intro r hr
      simp at hr
      rw [hr]
    · simp
  · simp only [execute_rec_order]
    constructor
    · intro r hr
      simp at hr
    · simp

/-- After a passing allocation check, a `failed` status carries either the
quote-fetch error, the constant `Zero or negative quote` reason, or the
order-placement error — never an empty or absent reason when the raised
errors' texts are non-empty. -/
theorem execute_rec_quote_failed_reasons (rec : Rec)
    (quote : Except String ℚ) (fill : Except String FillR)
    (hasNotifier : Bool) (hq : ∀ e, quote = .error e → e ≠ "")
    (hf : ∀ e, fill = .error e → e ≠ "") :
    (∀ r, RecEffect.updateRecStatus rec.id "failed" (some r) ∈
        execute_rec_quote rec quote fill hasNotifier → r ≠ "") ∧
    RecEffect.updateRecStatus rec.id "failed" none ∉
      execute_rec_quote rec quote fill hasNotifier := by
  rcases quote with e | mid
  · simp only [execute_rec_quote]
    refine ⟨?_, by simp⟩
    intro r hr
    simp at hr
    rw [hr]
    exact hq e rfl
  · simp only [execute_rec_quote]
    by_cases hmid : mid ≤ 0
    · rw [if_pos hmid]
      by_cases hent : (rec.entry_price_low + rec.entry_price_high) / 2 > 0
      · rw [if_pos hent]
        exact ⟨fun r hr => hf r
            ((execute_rec_order_failed_reasons rec _ fill hasNotifier).1 r hr),
          (execute_rec_order_failed_reasons rec _ fill hasNotifier).2⟩
      · rw [if_neg hent]
        refine ⟨?_, by simp⟩
        intro r hr
        simp at hr
        rw [hr]
        decide
    · rw [if_neg hmid]
      exact ⟨fun r hr => hf r
          ((execute_rec_order_failed_reasons rec mid fill hasNotifier).1 r hr),
        (execute_rec_order_failed_reasons rec mid fill hasNotifier).2⟩

/-- C7: executing an approved recommendation, a failing live allocation
check transitions the recommendation to `failed` with the (non-empty)
rejection reason and places no order; an account-summary raise, a
quote-fetch raise after approval, an unusable price (quote mid and thesis
entry midpoint both non-positive) and an order-placement raise on either
pricing path each end the run with status `failed` carrying exactly the
captured error text (resp. the constant `Zero or negative quote` reason) as
shown by the full effect lists; and on every path a `failed` status never
carries an absent reason, and a non-empty one whenever the raised errors'
texts are non-empty. -/
theorem execute_recommendation_failure_paths (rec : Rec)
    (account : Except String ℚ) (exposure : ℚ) (quote : Except String ℚ)
    (fill : Except String FillR) (config : ManagerConfig) (hasNotifier : Bool)
    (hacc : ∀ e, account = .error e → e ≠ "")
    (hq : ∀ e, quote = .error e → e ≠ "")
    (hf : ∀ e, fill = .error e → e ≠ "") :
    (∀ equity, account = .ok equity →
      (check_allocation rec.position_size_usd exposure equity config).1 = false →
      execute_recommendation rec account exposure quote fill config hasNotifier =
        [RecEffect.updateRecStatus rec.id "executing" none,
         RecEffect.updateRecStatus rec.id "failed"
           (some (check_allocation rec.position_size_usd exposure equity config).2)] ∧
      ∀ (q : Int) (l : ℚ), RecEffect.placeBuyLmt q l ∉
        execute_recommendation rec account exposure quote fill config hasNotifier) ∧
    (∀ e, account = .error e →
      execute_recommendation rec account exposure quote fill config hasNotifier =
        [RecEffect.updateRecStatus rec.id "executing" none,
         RecEffect.updateRecStatus rec.id "failed" (some e)]) ∧
    (∀ equity e, account = .ok equity →
      (check_allocation rec.position_size_usd exposure equity config).1 = true →
      quote = .error e →
      execute_recommendation rec account exposure quote fill config hasNotifier =
        [RecEffect.updateRecStatus rec.id "executing" none,
         RecEffect.updateRecStatus rec.id "failed" (some e)]) ∧
    (∀ equity mid, account = .ok equity →
      (check_allocation rec.position_size_usd exposure equity config).1 = true →
      quote = .ok mid → mid ≤ 0 →
      ¬((rec.entry_price_low + rec.entry_price_high) / 2 > 0) →
      execute_recommendation rec account exposure quote fill config hasNotifier =
        [RecEffect.updateRecStatus rec.id "executing" none,
         RecEffect.updateRecStatus rec.id "failed"
           (some "Zero or negative quote")]) ∧
    (∀ equity mid e, account = .ok equity →
      (check_allocation rec.position_size_usd exposure equity config).1 = true →
      quote = .ok mid → ¬(mid ≤ 0) → fill = .error e →
      execute_recommendation rec account exposure quote fill config hasNotifier =
        [RecEffect.updateRecStatus rec.id "executing" none,
         RecEffect.placeBuyLmt
           (max 1 (pyTrunc (rec.position_size_usd / (mid * 100)))) mid,
         RecEffect.updateRecStatus rec.id "failed" (some e)]) ∧
    (∀ equity mid e, account = .ok equity →
      (check_allocation rec.position_size_usd exposure equity config).1 = true →
      quote = .ok mid → mid ≤ 0 →
      (rec.entry_price_low + rec.entry_price_high) / 2 > 0 → fill = .error e →
      execute_recommendation rec account exposure quote fill config hasNotifier =
        [RecEffect.updateRecStatus rec.id "executing" none,
         RecEffect.placeBuyLmt
           (max 1 (pyTrunc (rec.position_size_usd /
             ((rec.entry_price_low + rec.entry_price_high) / 2 * 100))))
           ((rec.entry_price_low + rec.entry_price_high) / 2),
         RecEffect.updateRecStatus rec.id "failed" (some e)]) ∧
    (∀ r, RecEffect.updateRecStatus rec.id "failed" (some r) ∈
        execute_recommendation rec account exposure quote fill config hasNotifier →
      r ≠ "") ∧
    RecEffect.updateRecStatus rec.id "failed" none ∉
      execute_recommendation rec account exposure quote fill config hasNotifier := by
  refine ⟨?_, ?_, ?_, ?_, ?_, ?_, ?_, ?_⟩
  · intro equity heq hfalse
    subst heq
    constructor
    · simp only [execute_recommendation]
      rw [if_pos hfalse]
    · intro q l hmem
      simp only [execute_recommendation] at hmem
      rw [if_pos hfalse] at hmem
      simp at hmem
  · intro e heq
    subst heq
    rfl
  · intro equity e heq htrue hquote
    subst heq
    subst hquote
    have hne :
        ¬((check_allocation rec.position_size_usd exposure equity config).1
          = false) := by
      simp [htrue]
    simp only [execute_recommendation]
    rw [if_neg hne]
    rfl
  · intro equity mid heq htrue hquote hmid hent
    subst heq
    subst hquote
    have hne :
        ¬((check_allocation rec.position_size_usd exposure equity config).1
          = false) := by
      simp [htrue]
    simp only [execute_recommendation]
    rw [if_neg hne]
    simp only [execute_rec_quote]
    rw [if_pos hmid, if_neg hent]
  · intro equity mid e heq htrue hquote hmid hfill
    subst heq
    subst hquote
    subst hfill
    have hne :
        ¬((check_allocation rec.position_size_usd exposure equity config).1
          = false) := by
      simp [htrue]
    simp only [execute_recommendation]
    rw [if_neg hne]
    simp only [execute_rec_quote]
    rw [if_neg hmid]
    rfl
  · intro equity mid e heq htrue hquote hmid hent hfill
    subst heq
    subst hquote
    subst hfill
    have hne :
        ¬((check_allocation rec.position_size_usd exposure equity config).1
          = false) := by
      simp [htrue]
    simp only [execute_recommendation]
    rw [if_neg hne]
    simp only [execute_rec_quote]
    rw [if_pos hmid, if_pos hent]
    rfl
  · intro r hr
    rcases account with e | equity
    · simp only [execute_recommendation] at hr
      simp at hr
      rw [hr]
      exact hacc e rfl
    · by_cases hall :
        (check_allocation rec.position_size_usd exposure equity config).1 = false
      · simp only [execute_recommendation] at hr
        rw [if_pos hall] at hr
        simp at hr
        rw [hr]
        exact check_allocation_reason_ne_empty _ _ _ _
      · simp only [execute_recommendation] at hr
        rw [if_neg hall] at hr
        rcases List.mem_cons.mp hr with hr | hr
        · simp at hr
        · exact (execute_rec_quote_failed_reasons rec quote fill hasNotifier
            hq hf).1 r hr
  · intro hmem
    rcases account with e | equity
    · simp only [execute_recommendation] at hmem
      simp at hmem
    · by_cases hall :
        (check_allocation rec.position_size_usd exposure equity config).1 = false
      · simp only [execute_recommendation] at hmem
        rw [if_pos hall] at hmem
        simp at hmem
      · simp only [execute_recommendation] at hmem
        rw [if_neg hall] at hmem
        rcases List.mem_cons.mp hmem with hmem | hmem
        · simp at hmem
        · exact (execute_rec_quote_failed_reasons rec quote fill hasNotifier
            hq hf).2 hmem

/-- Witness for `execute_recommendation_failure_paths`: a passing
allocation check ($5000 more against a $20000 cap with $1000 deployed), a
live $1 quote, and an order placement that raises `Order rejected` — the
order-raise hypothesis is discharged at that concrete non-empty text. -/
theorem execute_recommendation_failure_paths_witness :
    (∀ equity, (Except.ok 200000 : Except String ℚ) = .ok equity →
      (check_allocation recDemo.position_size_usd 1000 equity {}).1 = false →
      execute_recommendation recDemo (.ok 200000) 1000 (.ok 1)
          (.error "Order rejected") {} false =
        [RecEffect.updateRecStatus recDemo.id "executing" none,
         RecEffect.updateRecStatus recDemo.id "failed"
           (some (check_allocation recDemo.position_size_usd 1000 equity {}).2)] ∧
      ∀ (q : Int) (l : ℚ), RecEffect.placeBuyLmt q l ∉
        execute_recommendation recDemo (.ok 200000) 1000 (.ok 1)
          (.error "Order rejected") {} false) ∧
    (∀ e, (Except.ok 200000 : Except String ℚ) = .error e →
      execute_recommendation recDemo (.ok 200000) 1000 (.ok 1)
          (.error "Order rejected") {} false =
        [RecEffect.updateRecStatus recDemo.id "executing" none,
         RecEffect.updateRecStatus recDemo.id "failed" (some e)]) ∧
    (∀ equity e, (Except.ok 200000 : Except String ℚ) = .ok equity →
      (check_allocation recDemo.position_size_usd 1000 equity {}).1 = true →
      (Except.ok 1 : Except String ℚ) = .error e →
      execute_recommendation recDemo (.ok 200000) 1000 (.ok 1)
          (.error "Order rejected") {} false =
        [RecEffect.updateRecStatus recDemo.id "executing" none,
         RecEffect.updateRecStatus recDemo.id "failed" (some e)]) ∧
    (∀ equity mid, (Except.ok 200000 : Except String ℚ) = .ok equity →
      (check_allocation recDemo.position_size_usd 1000 equity {}).1 = true →
      (Except.ok 1 : Except String ℚ) = .ok mid → mid ≤ 0 →
      ¬((recDemo.entry_price_low + recDemo.entry_price_high) / 2 > 0) →
      execute_recommendation recDemo (.ok 200000) 1000 (.ok 1)
          (.error "Order rejected") {} false =
        [RecEffect.updateRecStatus recDemo.id "executing" none,
         RecEffect.updateRecStatus recDemo.id "failed"
           (some "Zero or negative quote")]) ∧
    (∀ equity mid e, (Except.ok 200000 : Except String ℚ) = .ok equity →
      (check_allocation recDemo.position_size_usd 1000 equity {}).1 = true →
      (Except.ok 1 : Except String ℚ) = .ok mid → ¬(mid ≤ 0) →
      (Except.error "Order rejected" : Except String FillR) = .error e →
      execute_recommendation recDemo (.ok 200000) 1000 (.ok 1)
          (.error "Order rejected") {} false =
        [RecEffect.updateRecStatus recDemo.id "executing" none,
         RecEffect.placeBuyLmt
           (max 1 (pyTrunc (recDemo.position_size_usd / (mid * 100)))) mid,
         RecEffect.updateRecStatus recDemo.id "failed" (some e)]) ∧
    (∀ equity mid e, (Except.ok 200000 : Except String ℚ) = .ok equity →
      (check_allocation recDemo.position_size_usd 1000 equity {}).1 = true →
      (Except.ok 1 : Except String ℚ) = .ok mid → mid ≤ 0 →
      (recDemo.entry_price_low + recDemo.entry_price_high) / 2 > 0 →
      (Except.error "Order rejected" : Except String FillR) = .error e →
      execute_recommendation recDemo (.ok 200000) 1000 (.ok 1)
          (.error "Order rejected") {} false =
        [RecEffect.updateRecStatus recDemo.id "executing" none,
         RecEffect.placeBuyLmt
           (max 1 (pyTrunc (recDemo.position_size_usd /
             ((recDemo.entry_price_low + recDemo.entry_price_high) / 2 * 100))))
           ((recDemo.entry_price_low + recDemo.entry_price_high) / 2),
         RecEffect.updateRecStatus recDemo.id "failed" (some e)]) ∧
    (∀ r, RecEffect.updateRecStatus recDemo.id "failed" (some r) ∈
        execute_recommendation recDemo (.ok 200000) 1000 (.ok 1)
          (.error "Order rejected") {} false →
      r ≠ "") ∧
    RecEffect.updateRecStatus recDemo.id "failed" none ∉
      execute_recommendation recDemo (.ok 200000) 1000 (.ok 1)
        (.error "Order rejected") {} false :=
  execute_recommendation_failure_paths recDemo (.ok 200000) 1000 (.ok 1)
    (.error "Order rejected") {} false (fun e h => nomatch h)
    (fun e h => nomatch h)
    (fun e h => by injection h with h1; subst h1; decide)

/-! ## WorkflowEngine lemmas -/

/-- The retry loop logs exactly the attempts it makes, in order. -/
theorem execStepCore_logs {α : Type} (b : AgentBehavior α) (s : StepDef α)
    (c : α) : ∀ (n k : Nat) (last : Option (StepResult α)),
    (execStepCore b s c n k last).1 =
      (List.range' k (attemptsMadeCore b s c n k)).map
        (fun a => (a, attemptPassed b s c a)) := by
  intro n
  induction n with
  | zero => intro k last; rfl
  | succ n ih =>
    intro k last
    by_cases h : attemptPassed b s c k
    · simp only [execStepCore, attemptsMadeCore, attemptPassed] at h ⊢
      rw [if_pos h, if_pos h]
      simp [List.range']
    · simp only [execStepCore, attemptsMadeCore, attemptPassed] at h ⊢
      rw [if_neg h, if_neg h]
      simp only [List.range', List.map]
      rw [ih]
      rfl

/-- When every allowed attempt fails, the loop makes them all. -/
theorem attemptsMadeCore_all_fail {α : Type} (b : AgentBehavior α)
    (s : StepDef α) (c : α) : ∀ (n k : Nat),
    (∀ a, k ≤ a → a < k + n → attemptPassed b s c a = false) →
    attemptsMadeCore b s c n k = n := by
  intro n
  induction n with
  | zero => intro k h; rfl
  | succ n ih =>
    intro k h
    have hk : attemptPassed b s c k = false := h k (le_refl k) (by omega)
    simp only [attemptsMadeCore]
    rw [if_neg (by simp [hk]), ih (k + 1) (fun a h1 h2 => h a (by omega) (by omega))]

/-- When every allowed attempt fails, the loop returns the last attempt's
result. -/
theorem execStepCore_result_all_fail {α : Type} (b : AgentBehavior α)
    (s : StepDef α) (c : α) : ∀ (n k : Nat) (last : Option (StepResult α)),
    (∀ a, k ≤ a → a < k + n → attemptPassed b s c a = false) → 1 ≤ n →
    (execStepCore b s c n k last).2 =
      { step_id := s.id, agent := s.agent, attempt := k + n - 1,
        output := (attemptRun b s c (k + n - 1)).1,
        passed_gate := attemptPassed b s c (k + n - 1),
        error := (attemptRun b s c (k + n - 1)).2.2 } := by
  intro n
  induction n with
  | zero => intro k last h h1; exact absurd h1 (by omega)
  | succ n ih =>
    intro k last h h1
    have hk : attemptPassed b s c k = false := h k (le_refl k) (by omega)
    simp only [attemptPassed] at hk
    simp only [execStepCore]
    rw [if_neg (by simp [hk])]
    rcases Nat.eq_zero_or_pos n with hn | hn
    · subst hn
      simp only [execStepCore]
      simp only [attemptPassed]
      rfl
    · rw [ih (k + 1) _ (fun a h1 h2 => h a (by omega) (by omega)) hn]
      have harith : k + 1 + n - 1 = k + (n + 1) - 1 := by omega
      rw [harith]

/-- `_execute_step` writes one `log_step` row per attempt actually made —
no more, no fewer. -/
theorem execute_step_logs {α : Type} (b : AgentBehavior α) (rid : Int)
    (s : StepDef α) (cx : α) :
    (execute_step b rid s cx).1 =
      (List.range (attemptsMade b s cx)).map
        (fun a => WfEffect.logStep rid s.id s.agent a (attemptPassed b s cx a)) := by
  simp only [execute_step, attemptsMade]
  rw [execStepCore_logs, List.range_eq_range', List.map_map]
  rfl

/-- A step whose gate fails on every attempt: all `max_retries + 1` attempts
are logged and the returned result is the last attempt's failure. -/
theorem execute_step_all_fail {α : Type} (b : AgentBehavior α) (rid : Int)
    (s : StepDef α) (c : α)
    (hfail : ∀ a, a ≤ s.max_retries → attemptPassed b s c a = false) :
    (execute_step b rid s c).1 = failLogs b rid s c ∧
    (execute_step b rid s c).2.passed_gate = false ∧
    (execute_step b rid s c).2.attempt = s.max_retries ∧
    (execute_step b rid s c).2.error = lastError b s c := by
  have hmade : attemptsMadeCore b s c (s.max_retries + 1) 0 = s.max_retries + 1 :=
    attemptsMadeCore_all_fail b s c (s.max_retries + 1) 0
      (fun a h1 h2 => hfail a (by omega))
  have hres := execStepCore_result_all_fail b s c (s.max_retries + 1) 0 none
    (fun a h1 h2 => hfail a (by omega)) (by omega)
  have hr2 : (execute_step b rid s c).2 =
      (execStepCore b s c (s.max_retries + 1) 0 none).2 := rfl
  refine ⟨?_, ?_, ?_, ?_⟩
  · rw [execute_step_logs]
    simp only [attemptsMade, hmade, failLogs]
  · rw [hr2, hres]
    simpa using hfail s.max_retries (le_refl _)
  · rw [hr2, hres]
    simp
  · rw [hr2, hres]
    simp only [lastError]
    simp

/-- `runLogs` and `execute_step` only emit `log_step` effects: any count of
a non-log effect kind over them is zero. -/
theorem countP_runLogs_zero {α : Type} (b : AgentBehavior α) (rid : Int)
    (p : WfEffect α → Bool)
    (hp : ∀ rid' sid ag a pa, p (.logStep rid' sid ag a pa) = false) :
    ∀ (L : List (StepDef α)) (ctx : α), (runLogs b rid L ctx).countP p = 0 := by
  intro L
  induction L with
  | nil => intro ctx; rfl
  | cons s rest ih =>
    intro ctx
    simp only [runLogs]
    rw [List.countP_append]
    have h1 : (execute_step b rid s ctx).1.countP p = 0 := by
      rw [List.countP_eq_zero]
      intro e he
      rw [execute_step_logs] at he
      rcases List.mem_map.mp he with ⟨a, ha, rfl⟩
      simp [hp]
    rw [h1]
    cases hco : ctxThrough b [s] ctx with
    | none => simp
    | some ctx' => simp [ih ctx']

/-- See `countP_runLogs_zero`, for the failing step's logs. -/
theorem countP_failLogs_zero {α : Type} (b : AgentBehavior α) (rid : Int)
    (s : StepDef α) (c : α) (p : WfEffect α → Bool)
    (hp : ∀ rid' sid ag a pa, p (.logStep rid' sid ag a pa) = false) :
    (failLogs b rid s c).countP p = 0 := by
  rw [List.countP_eq_zero]
  intro e he
  rcases List.mem_map.mp he with ⟨a, ha, rfl⟩
  simp [hp]

/-- The step loop on `pre ++ fs :: post`, where every step of `pre` passes
(reaching context `c`) and `fs` fails every attempt: the run fails with the
prefix's logs, all of `fs`'s attempt logs, an escalation exactly when
`on_fail = escalate`, and one `failed` completion. -/
theorem runSteps_append_fail {α : Type} (agents : List String)
    (b : AgentBehavior α) (name : String) (rid : Int) :
    ∀ (pre : List (StepDef α)) (post : List (StepDef α)) (fs : StepDef α)
      (ctx c : α),
    (∀ s ∈ pre, s.agent ∈ agents) → fs.agent ∈ agents →
    ctxThrough b pre ctx = some c →
    (∀ a, a ≤ fs.max_retries → attemptPassed b fs c a = false) →
    runSteps agents b true name rid (pre ++ fs :: post) ctx =
      (runLogs b rid pre ctx ++ (failLogs b rid fs c
        ++ ((if fs.on_fail = OnFail.ESCALATE then
              [WfEffect.escalate name fs.id c (lastError b fs c)] else [])
          ++ [WfEffect.completeRun rid "failed"])),
       .failedNone) := by
  intro pre
  induction pre with
  | nil =>
    intro post fs ctx c hreg hfs hctx hfail
    have hc : ctx = c := by
      simpa [ctxThrough] using hctx
    subst hc
    obtain ⟨hlogs, hpassed, -, herr⟩ := execute_step_all_fail b rid fs ctx hfail
    simp only [List.nil_append, runSteps]
    rw [if_pos hfs]
    simp only [hpassed, Bool.false_eq_true, if_false, herr, hlogs]
    simp [runLogs, and_true]
  | cons s pre' ih =>
    intro post fs ctx c hreg hfs hctx hfail
    have hs : s.agent ∈ agents := hreg s (by simp)
    have hreg' : ∀ t ∈ pre', t.agent ∈ agents := fun t ht => hreg t (by simp [ht])
    -- dissect ctxThrough (s :: pre') ctx = some c
    rcases hrp : (stepResultOf b s ctx).passed_gate with _ | _
    · exfalso
      rw [ctxThrough, hrp] at hctx
      simp at hctx
    · rcases hro : (stepResultOf b s ctx).output with _ | o
      · exfalso
        rw [ctxThrough, hrp] at hctx
        simp only [if_true] at hctx
        rw [hro] at hctx
        simp at hctx
      · have hctx' : ctxThrough b pre' o = some c := by
          rw [ctxThrough, hrp] at hctx
          simp only [if_true] at hctx
          rw [hro] at hctx
          exact hctx
        have hrp2 : (execute_step b rid s ctx).2.passed_gate = true := hrp
        have hro2 : (execute_step b rid s ctx).2.output = some o := hro
        simp only [List.cons_append, runSteps]
        rw [if_pos hs]
        simp only [hrp2, hro2, if_true, List.append_eq]
        rw [ih post fs o c hreg' hfs hctx' hfail]
        have hlog : runLogs b rid (s :: pre') ctx =
            (execute_step b rid s ctx).1 ++ runLogs b rid pre' o := by
          simp only [runLogs, ctxThrough, hrp, hro, if_true]
        rw [hlog, List.append_assoc]

/-- C9: a run whose steps `pre` all pass (reaching context `c`) and whose
next step `fs` fails its gate on all `max_retries + 1` attempts (notifier
present): the run returns null with exactly one creation and one `failed`
completion; exactly one escalation — carrying the last context `c` and the
last attempt's error — when `on_fail = escalate` and none otherwise (in
particular none for `abort`); `fs` logs all its attempts, and in general
every step logs exactly the attempts actually made. -/
theorem run_gate_exhaustion {α : Type} (agents : List String)
    (b : AgentBehavior α) (rid : Int) (wf : WorkflowDef α) (init : α)
    (pre post : List (StepDef α)) (fs : StepDef α) (c : α)
    (hsteps : wf.steps = pre ++ fs :: post)
    (hreg : ∀ s ∈ pre, s.agent ∈ agents) (hfs : fs.agent ∈ agents)
    (hpre : ctxThrough b pre init = some c)
    (hfail : ∀ a, a ≤ fs.max_retries → attemptPassed b fs c a = false) :
    WorkflowEngine.run agents b true rid wf init =
      (WfEffect.createRun wf.id ::
        (runLogs b rid pre init ++ (failLogs b rid fs c
          ++ ((if fs.on_fail = OnFail.ESCALATE then
                [WfEffect.escalate wf.name fs.id c (lastError b fs c)] else [])
            ++ [WfEffect.completeRun rid "failed"]))),
       .failedNone) ∧
    countCreate (WorkflowEngine.run agents b true rid wf init).1 = 1 ∧
    countComplete (WorkflowEngine.run agents b true rid wf init).1 = 1 ∧
    countEscalate (WorkflowEngine.run agents b true rid wf init).1 =
      (if fs.on_fail = OnFail.ESCALATE then 1 else 0) ∧
    countLogs (failLogs b rid fs c) = fs.max_retries + 1 ∧
    (∀ (s : StepDef α) (cx : α), (execute_step b rid s cx).1 =
      (List.range (attemptsMade b s cx)).map fun a =>
        WfEffect.logStep rid s.id s.agent a (attemptPassed b s cx a)) := by
  have hshape : WorkflowEngine.run agents b true rid wf init =
      (WfEffect.createRun wf.id ::
        (runLogs b rid pre init ++ (failLogs b rid fs c
          ++ ((if fs.on_fail = OnFail.ESCALATE then
                [WfEffect.escalate wf.name fs.id c (lastError b fs c)] else [])
            ++ [WfEffect.completeRun rid "failed"]))),
       .failedNone) := by
    simp only [WorkflowEngine.run, hsteps]
    rw [runSteps_append_fail agents b wf.name rid pre post fs init c hreg hfs
      hpre hfail]
  refine ⟨hshape, ?_, ?_, ?_, ?_, fun s cx => execute_step_logs b rid s cx⟩
  · rw [hshape]
    unfold countCreate
    rw [List.countP_cons, List.countP_append, List.countP_append,
      List.countP_append,
      countP_runLogs_zero b rid WfEffect.isCreate (fun _ _ _ _ _ => rfl) pre init,
      countP_failLogs_zero b rid fs c WfEffect.isCreate (fun _ _ _ _ _ => rfl)]
    by_cases hof : fs.on_fail = OnFail.ESCALATE
    · rw [if_pos hof]
      rfl
    · rw [if_neg hof]
      rfl
  · rw [hshape]
    unfold countComplete
    rw [List.countP_cons, List.countP_append, List.countP_append,
      List.countP_append,
      countP_runLogs_zero b rid WfEffect.isComplete (fun _ _ _ _ _ => rfl) pre init,
      countP_failLogs_zero b rid fs c WfEffect.isComplete (fun _ _ _ _ _ => rfl)]
    by_cases hof : fs.on_fail = OnFail.ESCALATE
    · rw [if_pos hof]
      rfl
    · rw [if_neg hof]
      rfl
  · rw [hshape]
    unfold countEscalate
    rw [List.countP_cons, List.countP_append, List.countP_append,
      List.countP_append,
      countP_runLogs_zero b rid WfEffect.isEscalate (fun _ _ _ _ _ => rfl) pre init,
      countP_failLogs_zero b rid fs c WfEffect.isEscalate (fun _ _ _ _ _ => rfl)]
    by_cases hof : fs.on_fail = OnFail.ESCALATE
    · rw [if_pos hof, if_pos hof]
      rfl
    · rw [if_neg hof, if_neg hof]
      rfl
  · unfold countLogs failLogs
    rw [List.countP_map]
    have : (WfEffect.isLog (α := α)) ∘
        (fun a => WfEffect.logStep rid fs.id fs.agent a
          (attemptPassed b fs c a)) = fun _ => true := rfl
    rw [this, List.countP_true, List.length_range]

/-- Witness for `run_gate_exhaustion`: the 3-step demo workflow whose step 2
(escalating, `max_retries = 1`) fails both attempts after step 1 passes. -/
theorem run_gate_exhaustion_witness :
    WorkflowEngine.run ["a1", "a2", "a3"] behaviorDemo true 9 wfDemo 0 =
      (WfEffect.createRun wfDemo.id ::
        (runLogs behaviorDemo 9 [wfStep1] 0 ++ (failLogs behaviorDemo 9 wfStep2 1
          ++ ((if wfStep2.on_fail = OnFail.ESCALATE then
                [WfEffect.escalate wfDemo.name wfStep2.id 1
                  (lastError behaviorDemo wfStep2 1)] else [])
            ++ [WfEffect.completeRun 9 "failed"]))),
       .failedNone) ∧
    countCreate (WorkflowEngine.run ["a1", "a2", "a3"] behaviorDemo true 9 wfDemo 0).1 = 1 ∧
    countComplete (WorkflowEngine.run ["a1", "a2", "a3"] behaviorDemo true 9 wfDemo 0).1 = 1 ∧
    countEscalate (WorkflowEngine.run ["a1", "a2", "a3"] behaviorDemo true 9 wfDemo 0).1 =
      (if wfStep2.on_fail = OnFail.ESCALATE then 1 else 0) ∧
    countLogs (failLogs behaviorDemo 9 wfStep2 1) = wfStep2.max_retries + 1 ∧
    (∀ (s : StepDef Nat) (cx : Nat), (execute_step behaviorDemo 9 s cx).1 =
      (List.range (attemptsMade behaviorDemo s cx)).map fun a =>
        WfEffect.logStep 9 s.id s.agent a (attemptPassed behaviorDemo s cx a)) :=
  run_gate_exhaustion ["a1", "a2", "a3"] behaviorDemo 9 wfDemo 0 [wfStep1]
    [wfStep3] wfStep2 1 rfl (by decide) (by decide) rfl (by decide)

/-- C1 evidence: running a workflow whose (only) step names an unregistered
agent performs the run-creation call and then raises, never calling
run-completion — the registration check happens after the run row exists,
so a `running` row is orphaned. -/
theorem unknown_agent_after_run_creation :
    WorkflowEngine.run ([] : List String) behaviorDemo true 7 wfGhost 0 =
      ([WfEffect.createRun "wf1"], .raised "Agent not registered: ghost") ∧
    countCreate (WorkflowEngine.run ([] : List String) behaviorDemo true 7 wfGhost 0).1 = 1 ∧
    countComplete (WorkflowEngine.run ([] : List String) behaviorDemo true 7 wfGhost 0).1 = 0 :=
  ⟨rfl, rfl, rfl⟩

/-! ## Reconciliation lemmas -/

/-- What `find_position_by_contract` returns: an open row with exactly the
requested contract details. -/
theorem find_contract_spec (db : DB) (t rr : String) (s : ℚ) (e : Int)
    (p : PositionRow) (h : db.find_position_by_contract t rr s e = some p) :
    p ∈ db.rows ∧ p.status = "open" ∧ p.ticker = t ∧ p.right = rr ∧
    p.strike = s ∧ p.expiry = e := by
  unfold DB.find_position_by_contract at h
  have hm := List.mem_of_mem_getLast? h
  have hmf := List.mem_filter.mp hm
  have hb := hmf.2
  simp only [Bool.and_eq_true, beq_iff_eq] at hb
  exact ⟨hmf.1, hb.2, hb.1.1.1.1, hb.1.1.1.2, hb.1.1.2, hb.1.2⟩

/-- `find_position_by_contract` succeeds whenever some open row has the
requested contract details. -/
theorem find_contract_isSome (db : DB) (t rr : String) (s : ℚ) (e : Int)
    (hex : ∃ r ∈ db.rows, r.status = "open" ∧ r.ticker = t ∧ r.right = rr ∧
      r.strike = s ∧ r.expiry = e) :
    (db.find_position_by_contract t rr s e).isSome := by
  obtain ⟨r, hr, hopen, h1, h2, h3, h4⟩ := hex
  unfold DB.find_position_by_contract
  rw [List.getLast?_isSome]
  intro hnil
  have hmem : r ∈ db.rows.filter fun q =>
      q.ticker == t && q.right == rr && q.strike == s && q.expiry == e
        && q.status == "open" :=
    List.mem_filter.mpr ⟨hr, by simp [h1, h2, h3, h4, hopen]⟩
  rw [hnil] at hmem
  exact absurd hmem (List.not_mem_nil r)

/-- What a `db_by_con_id` dict hit returns: a snapshot row carrying exactly
the (truthy) looked-up con id. -/
theorem dictFind_spec (snap : List PositionRow) (cid : Int) (p : PositionRow)
    (h : dictFind snap cid = some p) :
    p ∈ snap ∧ p.ib_con_id = some cid ∧ cid ≠ 0 := by
  unfold dictFind at h
  have hm := List.mem_of_mem_getLast? h
  have hmf := List.mem_filter.mp hm
  have hb := hmf.2
  simp only [Bool.and_eq_true, beq_iff_eq] at hb
  refine ⟨hmf.1, hb.2, ?_⟩
  have ht := hb.1
  rw [hb.2] at ht
  simpa [truthyCon] using ht

/-- The per-item loop never closes a position. -/
theorem syncOneItem_closes (snap : List PositionRow)
    (st : DB × List Int × SyncStats) (i : IBPortfolioItem) :
    (syncOneItem snap st i).2.2.closes = st.2.2.closes := by
  simp only [syncOneItem]
  rcases hd : dictFind snap i.con_id with _ | p
  · rcases hf : st.1.find_position_by_contract i.symbol i.right i.strike
        i.expiry with _ | q
    · rfl
    · rfl
  · rfl

/-- The per-item loop inserts nothing for an item some open row already
records. -/
theorem syncOneItem_inserts_of_good (snap : List PositionRow)
    (st : DB × List Int × SyncStats) (i : IBPortfolioItem)
    (hgood : goodFor st.1 i) :
    (syncOneItem snap st i).2.2.inserts = st.2.2.inserts := by
  simp only [syncOneItem]
  rcases hd : dictFind snap i.con_id with _ | p
  · have hs : (st.1.find_position_by_contract i.symbol i.right i.strike
        i.expiry).isSome := by
      apply find_contract_isSome
      obtain ⟨r, hr, hopen, hc⟩ := hgood
      exact ⟨r, hr, hopen, hc.1, hc.2.1, hc.2.2.1, hc.2.2.2⟩
    rcases hf : st.1.find_position_by_contract i.symbol i.right i.strike
        i.expiry with _ | q
    · rw [hf] at hs
      simp at hs
    · rfl
  · rfl

/-- A price update keeps an open row with a given contract open with that
contract. -/
theorem goodFor_update_price (db : DB) (x : Int) (p u : ℚ)
    (j : IBPortfolioItem) (h : goodFor db j) :
    goodFor (db.update_position_price x p u) j := by
  obtain ⟨r, hr, hopen, hc⟩ := h
  refine ⟨if r.id = x then { r with current_price := p, unrealized_pnl := u }
    else r, ?_, ?_, ?_⟩
  · exact List.mem_map_of_mem _ hr
  · split <;> simpa using hopen
  · obtain ⟨h1, h2, h3, h4⟩ := hc
    split <;> exact ⟨by simpa using h1, by simpa using h2, by simpa using h3,
      by simpa using h4⟩

/-- A con-id backfill keeps an open row with a given contract open with that
contract. -/
theorem goodFor_update_con (db : DB) (x : Int) (cid : Int)
    (j : IBPortfolioItem) (h : goodFor db j) :
    goodFor (db.update_position_con_id x cid) j := by
  obtain ⟨r, hr, hopen, hc⟩ := h
  refine ⟨if r.id = x then { r with ib_con_id := some cid } else r, ?_, ?_, ?_⟩
  · exact List.mem_map_of_mem _ hr
  · split <;> simpa using hopen
  · obtain ⟨h1, h2, h3, h4⟩ := hc
    split <;> exact ⟨by simpa using h1, by simpa using h2, by simpa using h3,
      by simpa using h4⟩

/-- An insert keeps every existing open row. -/
theorem goodFor_insert (db : DB) (row : PositionRow) (j : IBPortfolioItem)
    (h : goodFor db j) : goodFor (db.insert_position row).1 j := by
  obtain ⟨r, hr, hopen, hc⟩ := h
  exact ⟨r, List.mem_append_left _ hr, hopen, hc⟩

/-- The per-item loop preserves `goodFor` for every item. -/
theorem syncOneItem_preserves_goodFor (snap : List PositionRow)
    (st : DB × List Int × SyncStats) (i j : IBPortfolioItem)
    (h : goodFor st.1 j) : goodFor (syncOneItem snap st i).1 j := by
  simp only [syncOneItem]
  rcases hd : dictFind snap i.con_id with _ | p
  · rcases hf : st.1.find_position_by_contract i.symbol i.right i.strike
        i.expiry with _ | q
    · exact goodFor_insert _ _ _ h
    · exact goodFor_update_price _ _ _ _ _ (goodFor_update_con _ _ _ _ h)
  · exact goodFor_update_price _ _ _ _ _ h

/-- A price update leaves id, contract fields, status and con id of every
row's image unchanged. -/
theorem tracksSnap_update_price (snap : List PositionRow) (db : DB) (x : Int)
    (p u : ℚ) (h : tracksSnap snap db) :
    tracksSnap snap (db.update_position_price x p u) := by
  intro r0 hr0
  obtain ⟨r, hr, h1, h2, h3, h4, h5, h6⟩ := h r0 hr0
  refine ⟨if r.id = x then { r with current_price := p, unrealized_pnl := u }
    else r, List.mem_map_of_mem _ hr, ?_⟩
  split <;> exact ⟨by simpa using h1, by simpa using h2, by simpa using h3,
    by simpa using h4, by simpa using h5, by simpa using h6⟩

/-- A con-id backfill leaves id, contract fields and status of every row's
image unchanged. -/
theorem tracksSnap_update_con (snap : List PositionRow) (db : DB)
    (x cid : Int) (h : tracksSnap snap db) :
    tracksSnap snap (db.update_position_con_id x cid) := by
  intro r0 hr0
  obtain ⟨r, hr, h1, h2, h3, h4, h5, h6⟩ := h r0 hr0
  refine ⟨if r.id = x then { r with ib_con_id := some cid } else r,
    List.mem_map_of_mem _ hr, ?_⟩
  split <;> exact ⟨by simpa using h1, by simpa using h2, by simpa using h3,
    by simpa using h4, by simpa using h5, by simpa using h6⟩

/-- An insert keeps every existing row. -/
theorem tracksSnap_insert (snap : List PositionRow) (db : DB)
    (row : PositionRow) (h : tracksSnap snap db) :
    tracksSnap snap (db.insert_position row).1 := by
  intro r0 hr0
  obtain ⟨r, hr, hfields⟩ := h r0 hr0
  exact ⟨r, List.mem_append_left _ hr, hfields⟩

/-- The per-item loop tracks every snapshot row. -/
theorem tracksSnap_syncOneItem (snap : List PositionRow)
    (st : DB × List Int × SyncStats) (i : IBPortfolioItem)
    (h : tracksSnap snap st.1) : tracksSnap snap (syncOneItem snap st i).1 := by
  simp only [syncOneItem]
  rcases hd : dictFind snap i.con_id with _ | p
  · rcases hf : st.1.find_position_by_contract i.symbol i.right i.strike
        i.expiry with _ | q
    · exact tracksSnap_insert _ _ _ h
    · exact tracksSnap_update_price _ _ _ _ _ (tracksSnap_update_con _ _ _ _ h)
  · exact tracksSnap_update_price _ _ _ _ _ h

/-- The per-item loop never lowers the id counter below any snapshot id. -/
theorem fresh_syncOneItem (snap : List PositionRow)
    (st : DB × List Int × SyncStats) (i : IBPortfolioItem)
    (h : ∀ r0 ∈ snap, r0.id < st.1.next_id) :
    ∀ r0 ∈ snap, r0.id < (syncOneItem snap st i).1.next_id := by
  simp only [syncOneItem]
  rcases hd : dictFind snap i.con_id with _ | p
  · rcases hf : st.1.find_position_by_contract i.symbol i.right i.strike
        i.expiry with _ | q
    · intro r0 hr0
      have := h r0 hr0
      simp only [DB.insert_position]
      omega
    · exact h
  · exact h

/-- The per-item loop only grows the seen set. -/
theorem seen_syncOneItem (snap : List PositionRow)
    (st : DB × List Int × SyncStats) (i : IBPortfolioItem) :
    ∀ x ∈ st.2.1, x ∈ (syncOneItem snap st i).2.1 := by
  simp only [syncOneItem]
  rcases hd : dictFind snap i.con_id with _ | p
  · rcases hf : st.1.find_position_by_contract i.symbol i.right i.strike
        i.expiry with _ | q
    · exact fun x hx => hx
    · exact fun x hx => List.mem_cons_of_mem _ hx
  · exact fun x hx => List.mem_cons_of_mem _ hx

/-- Every row of a price-updated table is an old row with only its price
fields changed. -/
theorem update_price_mem (db : DB) (x : Int) (p u : ℚ) (r' : PositionRow)
    (h : r' ∈ (db.update_position_price x p u).rows) :
    ∃ r ∈ db.rows, r'.id = r.id ∧ r'.ticker = r.ticker ∧ r'.right = r.right ∧
      r'.strike = r.strike ∧ r'.expiry = r.expiry ∧ r'.status = r.status ∧
      r'.ib_con_id = r.ib_con_id := by
  obtain ⟨r, hr, rfl⟩ := List.mem_map.mp h
  refine ⟨r, hr, ?_⟩
  split <;> simp

/-- Every row of a con-id-backfilled table is an old row, with the new con
id exactly on the rows whose id was targeted. -/
theorem update_con_mem (db : DB) (x cid : Int) (r' : PositionRow)
    (h : r' ∈ (db.update_position_con_id x cid).rows) :
    ∃ r ∈ db.rows, r'.id = r.id ∧ r'.ticker = r.ticker ∧ r'.right = r.right ∧
      r'.strike = r.strike ∧ r'.expiry = r.expiry ∧ r'.status = r.status ∧
      ((r.id = x ∧ r'.ib_con_id = some cid) ∨
        (r.id ≠ x ∧ r'.ib_con_id = r.ib_con_id)) := by
  obtain ⟨r, hr, rfl⟩ := List.mem_map.mp h
  by_cases h2 : r.id = x
  · exact ⟨r, hr, by simp [if_pos h2], by simp [if_pos h2], by simp [if_pos h2],
      by simp [if_pos h2], by simp [if_pos h2], by simp [if_pos h2],
      Or.inl ⟨h2, by simp [if_pos h2]⟩⟩
  · exact ⟨r, hr, by simp [if_neg h2], by simp [if_neg h2], by simp [if_neg h2],
      by simp [if_neg h2], by simp [if_neg h2], by simp [if_neg h2],
      Or.inr ⟨h2, by simp [if_neg h2]⟩⟩

/-- Every row of a table after `close_position` is an old row, closed
exactly when its id was targeted. -/
theorem close_position_mem (db : DB) (x : Int) (reason : String) (rz : ℚ)
    (r' : PositionRow) (h : r' ∈ (db.close_position x reason rz).rows) :
    ∃ r ∈ db.rows, r'.id = r.id ∧ r'.ticker = r.ticker ∧ r'.right = r.right ∧
      r'.strike = r.strike ∧ r'.expiry = r.expiry ∧
      r'.ib_con_id = r.ib_con_id ∧
      ((r.id = x ∧ r'.status = "closed") ∨
        (r.id ≠ x ∧ r'.status = r.status)) := by
  obtain ⟨r, hr, rfl⟩ := List.mem_map.mp h
  by_cases h2 : r.id = x
  · exact ⟨r, hr, by simp [if_pos h2], by simp [if_pos h2], by simp [if_pos h2],
      by simp [if_pos h2], by simp [if_pos h2], by simp [if_pos h2],
      Or.inl ⟨h2, by simp [if_pos h2]⟩⟩
  · exact ⟨r, hr, by simp [if_neg h2], by simp [if_neg h2], by simp [if_neg h2],
      by simp [if_neg h2], by simp [if_neg h2], by simp [if_neg h2],
      Or.inr ⟨h2, by simp [if_neg h2]⟩⟩

/-- Every row after an insert is an old row or the freshly inserted one. -/
theorem insert_position_mem (db : DB) (row : PositionRow) (r' : PositionRow)
    (h : r' ∈ (db.insert_position row).1.rows) :
    r' ∈ db.rows ∨ r' = { row with id := db.next_id, status := "open" } := by
  rcases List.mem_append.mp h with h | h
  · exact Or.inl h
  · exact Or.inr (by simpa using h)

/-- The per-item loop preserves the con-id linkage invariant. -/
theorem conLinked_syncOneItem (cons : List Int) (snap : List PositionRow)
    (st : DB × List Int × SyncStats) (i : IBPortfolioItem)
    (hsnodup : (snapIds snap).Nodup) (hic : i.con_id ∈ cons)
    (h : conLinked cons snap st.2.1 st.1) :
    conLinked cons snap (syncOneItem snap st i).2.1 (syncOneItem snap st i).1 := by
  simp only [syncOneItem]
  rcases hd : dictFind snap i.con_id with _ | p
  · rcases hf : st.1.find_position_by_contract i.symbol i.right i.strike
        i.expiry with _ | q
    · -- insert branch: seen unchanged, one appended row carrying i.con_id
      intro r' hr' hopen cc hcc hcc0
      rcases insert_position_mem _ _ _ hr' with hr' | hr'
      · exact h r' hr' hopen cc hcc hcc0
      · left
        rw [hr'] at hcc
        simp only at hcc
        cases hcc
        exact hic
    · -- fallback branch: q's rows get con id i.con_id, seen grows by q.id
      intro r' hr' hopen cc hcc hcc0
      obtain ⟨r1, hr1, hid1, -, -, -, -, hst1, hcon1⟩ :=
        update_price_mem _ _ _ _ _ hr'
      obtain ⟨r, hr, hid2, -, -, -, -, hst2, hcon2⟩ := update_con_mem _ _ _ _ hr1
      rcases hcon2 with ⟨hqx, hset⟩ | ⟨hqx, hkeep⟩
      · left
        rw [hcon1, hset] at hcc
        cases hcc
        exact hic
      · have hcc' : r.ib_con_id = some cc := by rw [← hkeep, ← hcon1, hcc]
        have hopen' : r.status = "open" := by rw [← hst2, ← hst1, hopen]
        rcases h r hr hopen' cc hcc' hcc0 with hl | ⟨r0, hr0, hid0, hcon0, hns⟩
        · exact Or.inl hl
        · right
          refine ⟨r0, hr0, by rw [hid0, ← hid2, ← hid1], hcon0, ?_⟩
          intro hmem
          rw [hid1, hid2] at hmem
          rcases List.mem_cons.mp hmem with hmem | hmem
          · exact hqx hmem
          · exact hns hmem
  · -- dict branch: price update on p.id, seen grows by p.id
    have hp := dictFind_spec snap i.con_id p hd
    intro r' hr' hopen cc hcc hcc0
    obtain ⟨r, hr, hid1, -, -, -, -, hst1, hcon1⟩ :=
      update_price_mem _ _ _ _ _ hr'
    have hcc' : r.ib_con_id = some cc := by rw [← hcon1, hcc]
    have hopen' : r.status = "open" := by rw [← hst1, hopen]
    rcases h r hr hopen' cc hcc' hcc0 with hl | ⟨r0, hr0, hid0, hcon0, hns⟩
    · exact Or.inl hl
    · by_cases hpid : r.id = p.id
      · left
        have hr0p : r0 = p := by
          apply List.inj_on_of_nodup_map hsnodup hr0 hp.1
          show r0.id = p.id
          rw [hid0, hpid]
        have heq : some cc = some i.con_id := by
          rw [← hcon0, hr0p, hp.2.1]
        cases heq
        exact hic
      · right
        refine ⟨r0, hr0, by rw [hid0, ← hid1], hcon0, ?_⟩
        rw [hid1]
        intro hmem
        rcases List.mem_cons.mp hmem with hmem | hmem
        · exact hpid hmem
        · exact hns hmem

/-- Forward image of a row through a price update. -/
theorem update_price_image (db : DB) (x : Int) (p u : ℚ) (r : PositionRow)
    (hr : r ∈ db.rows) :
    ∃ r' ∈ (db.update_position_price x p u).rows, r'.id = r.id ∧
      r'.ticker = r.ticker ∧ r'.right = r.right ∧ r'.strike = r.strike ∧
      r'.expiry = r.expiry ∧ r'.status = r.status := by
  refine ⟨_, List.mem_map_of_mem
    (fun q => if q.id = x then { q with current_price := p, unrealized_pnl := u }
      else q) hr, ?_⟩
  split <;> simp

/-- Forward image of a row through a con-id backfill. -/
theorem update_con_image (db : DB) (x cid : Int) (r : PositionRow)
    (hr : r ∈ db.rows) :
    ∃ r' ∈ (db.update_position_con_id x cid).rows, r'.id = r.id ∧
      r'.ticker = r.ticker ∧ r'.right = r.right ∧ r'.strike = r.strike ∧
      r'.expiry = r.expiry ∧ r'.status = r.status := by
  refine ⟨_, List.mem_map_of_mem
    (fun q => if q.id = x then { q with ib_con_id := some cid } else q) hr, ?_⟩
  split <;> simp

/-- The matched item's row survives the fallback backfill-and-reprice with
its id, contract and status intact. -/
theorem backfill_reprice_image (db : DB) (x cid : Int) (p u : ℚ)
    (r : PositionRow) (hr : r ∈ db.rows) :
    ∃ r' ∈ ((db.update_position_con_id x cid).update_position_price x p u).rows,
      r'.id = r.id ∧ r'.ticker = r.ticker ∧ r'.right = r.right ∧
      r'.strike = r.strike ∧ r'.expiry = r.expiry ∧ r'.status = r.status := by
  obtain ⟨r1, hr1, h1⟩ := update_con_image db x cid r hr
  obtain ⟨r2, hr2, h2⟩ := update_price_image _ x p u r1 hr1
  exact ⟨r2, hr2, h2.1.trans h1.1, h2.2.1.trans h1.2.1,
    h2.2.2.1.trans h1.2.2.1, h2.2.2.2.1.trans h1.2.2.2.1,
    h2.2.2.2.2.1.trans h1.2.2.2.2.1, h2.2.2.2.2.2.trans h1.2.2.2.2.2⟩

/-- Processing an item establishes `goodSeen` for that item. -/
theorem goodSeen_syncOneItem_self (snap : List PositionRow)
    (st : DB × List Int × SyncStats) (i : IBPortfolioItem)
    (hsnapopen : ∀ p ∈ snap, p.status = "open")
    (htrack : tracksSnap snap st.1)
    (hfresh : ∀ r0 ∈ snap, r0.id < st.1.next_id)
    (hconsSnap : ∀ p ∈ snap, p.ib_con_id = some i.con_id → contractEq p i) :
    goodSeen snap (syncOneItem snap st i).1 (syncOneItem snap st i).2.1 i := by
  simp only [syncOneItem]
  rcases hd : dictFind snap i.con_id with _ | p
  · rcases hf : st.1.find_position_by_contract i.symbol i.right i.strike
        i.expiry with _ | q
    · -- insert branch
      refine ⟨_, List.mem_append_right _ (List.mem_singleton_self _), rfl,
        ⟨rfl, rfl, rfl, rfl⟩, Or.inr ?_⟩
      intro hmem
      obtain ⟨r0, hr0, hid⟩ := List.mem_map.mp hmem
      have hlt := hfresh r0 hr0
      have hid' : r0.id = st.1.next_id := hid
      omega
    · -- fallback branch
      have hq := find_contract_spec st.1 _ _ _ _ q hf
      obtain ⟨r', hr', hid, ht, hrt, hs, he, hst⟩ :=
        backfill_reprice_image st.1 q.id i.con_id i.market_price
          i.unrealized_pnl q hq.1
      refine ⟨r', hr', by rw [hst]; exact hq.2.1,
        ⟨by rw [ht]; exact hq.2.2.1, by rw [hrt]; exact hq.2.2.2.1,
         by rw [hs]; exact hq.2.2.2.2.1, by rw [he]; exact hq.2.2.2.2.2⟩,
        Or.inl ?_⟩
      rw [hid]
      exact List.mem_cons_self _ _
  · -- dict branch
    have hp := dictFind_spec snap i.con_id p hd
    have hcontract := hconsSnap p hp.1 hp.2.1
    obtain ⟨r, hr, hid0, ht0, hrt0, hs0, he0, hst0⟩ := htrack p hp.1
    obtain ⟨r', hr', hid, ht, hrt, hs, he, hst⟩ :=
      update_price_image st.1 p.id i.market_price i.unrealized_pnl r hr
    refine ⟨r', hr', ?_, ?_, Or.inl ?_⟩
    · rw [hst, hst0]
      exact hsnapopen p hp.1
    · exact ⟨by rw [ht, ht0]; exact hcontract.1,
        by rw [hrt, hrt0]; exact hcontract.2.1,
        by rw [hs, hs0]; exact hcontract.2.2.1,
        by rw [he, he0]; exact hcontract.2.2.2⟩
    · rw [hid, hid0]
      exact List.mem_cons_self _ _

/-- Processing an item preserves `goodSeen` for every item. -/
theorem goodSeen_syncOneItem_mono (snap : List PositionRow)
    (st : DB × List Int × SyncStats) (i j : IBPortfolioItem)
    (h : goodSeen snap st.1 st.2.1 j) :
    goodSeen snap (syncOneItem snap st i).1 (syncOneItem snap st i).2.1 j := by
  obtain ⟨r, hr, hopen, hc, hsee⟩ := h
  have hseen := seen_syncOneItem snap st i
  simp only [syncOneItem] at hseen ⊢
  rcases hd : dictFind snap i.con_id with _ | p
  · rcases hf : st.1.find_position_by_contract i.symbol i.right i.strike
        i.expiry with _ | q
    · exact ⟨r, List.mem_append_left _ hr, hopen, hc, hsee⟩
    · obtain ⟨r', hr', hid, ht, hrt, hs, he, hst⟩ :=
        backfill_reprice_image st.1 q.id i.con_id i.market_price
          i.unrealized_pnl r hr
      refine ⟨r', hr', by rw [hst]; exact hopen,
        ⟨by rw [ht]; exact hc.1, by rw [hrt]; exact hc.2.1,
         by rw [hs]; exact hc.2.2.1, by rw [he]; exact hc.2.2.2⟩, ?_⟩
      rw [hid]
      rcases hsee with hs1 | hs2
      · exact Or.inl (List.mem_cons_of_mem _ hs1)
      · exact Or.inr hs2
  · obtain ⟨r', hr', hid, ht, hrt, hs, he, hst⟩ :=
      update_price_image st.1 p.id i.market_price i.unrealized_pnl r hr
    refine ⟨r', hr', by rw [hst]; exact hopen,
      ⟨by rw [ht]; exact hc.1, by rw [hrt]; exact hc.2.1,
       by rw [hs]; exact hc.2.2.1, by rw [he]; exact hc.2.2.2⟩, ?_⟩
    rw [hid]
    rcases hsee with hs1 | hs2
    · exact Or.inl (List.mem_cons_of_mem _ hs1)
    · exact Or.inr hs2

/-- The stale-row loop cannot close a `goodSeen` witness row. -/
theorem goodSeen_closeStale (cons seen : List Int) (snap : List PositionRow)
    (st : DB × SyncStats) (p : PositionRow) (hp : p ∈ snap)
    (j : IBPortfolioItem) (h : goodSeen snap st.1 seen j) :
    goodSeen snap (closeStale cons seen st p).1 seen j := by
  unfold closeStale
  by_cases hs : p.id ∈ seen
  · rw [if_pos hs]
    exact h
  · rw [if_neg hs]
    rcases hcon : p.ib_con_id with _ | cp
    · exact h
    · dsimp only
      by_cases hcl : cp ≠ 0 ∧ cp ∉ cons
      · rw [if_pos hcl]
        obtain ⟨r, hr, hopen, hc, hsee⟩ := h
        have hne : r.id ≠ p.id := by
          rcases hsee with hseen | hnot
          · intro he
            rw [he] at hseen
            exact hs hseen
          · intro he
            apply hnot
            rw [he]
            exact List.mem_map_of_mem _ hp
        refine ⟨_, List.mem_map_of_mem _ hr, ?_⟩
        rw [if_neg hne]
        exact ⟨hopen, hc, hsee⟩
      · rw [if_neg hcl]
        exact h

/-- Fold form of `goodSeen_closeStale`. -/
theorem closeLoop_goodSeen (cons seen : List Int) (snap : List PositionRow) :
    ∀ (SL : List PositionRow) (st : DB × SyncStats) (j : IBPortfolioItem),
    (∀ p ∈ SL, p ∈ snap) → goodSeen snap st.1 seen j →
    goodSeen snap (SL.foldl (closeStale cons seen) st).1 seen j := by
  intro SL
  induction SL with
  | nil => exact fun st j _ h => h
  | cons p SL' ih =>
    intro st j hsub h
    simp only [List.foldl_cons]
    exact ih _ j (fun q hq => hsub q (List.mem_cons_of_mem _ hq))
      (goodSeen_closeStale cons seen snap st p (hsub p (List.mem_cons_self _ _)) j h)

/-- The stale-row loop turns the linkage invariant into the closed-world
one: afterwards every open row's truthy con id is in the portfolio. -/
theorem closeLoop_conInv (cons seen : List Int) :
    ∀ (SL : List PositionRow) (st : DB × SyncStats),
    (∀ r ∈ st.1.rows, r.status = "open" → ∀ cc : Int, r.ib_con_id = some cc →
      cc ≠ 0 → (cc ∈ cons ∨
        ∃ r0 ∈ SL, r0.id = r.id ∧ r0.ib_con_id = some cc ∧ r.id ∉ seen)) →
    conInv cons (SL.foldl (closeStale cons seen) st).1 := by
  intro SL
  induction SL with
  | nil =>
    intro st h r hr hopen cc hcc hcc0
    rcases h r hr hopen cc hcc hcc0 with hl | ⟨r0, hr0, -⟩
    · exact hl
    · exact absurd hr0 (List.not_mem_nil r0)
  | cons p SL' ih =>
    intro st h
    simp only [List.foldl_cons]
    apply ih
    unfold closeStale
    by_cases hs : p.id ∈ seen
    · rw [if_pos hs]
      intro r hr hopen cc hcc hcc0
      rcases h r hr hopen cc hcc hcc0 with hl | ⟨r0, hr0m, hid, hcon, hns⟩
      · exact Or.inl hl
      · rcases List.mem_cons.mp hr0m with heq | hr0m'
        · exfalso
          apply hns
          rw [← hid, heq]
          exact hs
        · exact Or.inr ⟨r0, hr0m', hid, hcon, hns⟩
    · rw [if_neg hs]
      rcases hcon : p.ib_con_id with _ | cp
      · intro r hr hopen cc hcc hcc0
        rcases h r hr hopen cc hcc hcc0 with hl | ⟨r0, hr0m, hid, hcon0, hns⟩
        · exact Or.inl hl
        · rcases List.mem_cons.mp hr0m with heq | hr0m'
          · rw [heq, hcon] at hcon0
            exact absurd hcon0 (by simp)
          · exact Or.inr ⟨r0, hr0m', hid, hcon0, hns⟩
      · dsimp only
        by_cases hcl : cp ≠ 0 ∧ cp ∉ cons
        · rw [if_pos hcl]
          intro r' hr' hopen' cc hcc' hcc0
          obtain ⟨r, hr, hid1, -, -, -, -, hconeq, hstat⟩ :=
            close_position_mem _ _ _ _ _ hr'
          rcases hstat with ⟨hpx, hclosed⟩ | ⟨hpx, hkeep⟩
          · rw [hclosed] at hopen'
            exact absurd hopen' (by decide)
          · rw [hkeep] at hopen'
            have hcc'' : r.ib_con_id = some cc := by rw [← hconeq, hcc']
            rcases h r hr hopen' cc hcc'' hcc0 with hl | ⟨r0, hr0m, hid0, hcon0, hns⟩
            · exact Or.inl hl
            · rcases List.mem_cons.mp hr0m with heq | hr0m'
              · exfalso
                apply hpx
                rw [← hid0, heq]
              · refine Or.inr ⟨r0, hr0m', by rw [hid0, ← hid1], hcon0, ?_⟩
                rw [hid1]
                exact hns
        · rw [if_neg hcl]
          intro r hr hopen cc hcc hcc0
          rcases h r hr hopen cc hcc hcc0 with hl | ⟨r0, hr0m, hid0, hcon0, hns⟩
          · exact Or.inl hl
          · rcases List.mem_cons.mp hr0m with heq | hr0m'
            · left
              rw [heq, hcon] at hcon0
              have hcp : cp = cc := by
                cases hcon0
                rfl
              rcases not_and_or.mp hcl with h0 | hmem
              · exact absurd (hcp ▸ hcc0) (by simpa using h0)
              · rw [← hcp]
                simpa using hmem
            · exact Or.inr ⟨r0, hr0m', hid0, hcon0, hns⟩

/-- The stale-row loop never inserts. -/
theorem closeStale_inserts (cons seen : List Int) (st : DB × SyncStats)
    (p : PositionRow) : (closeStale cons seen st p).2.inserts = st.2.inserts := by
  unfold closeStale
  by_cases hs : p.id ∈ seen
  · rw [if_pos hs]
  · rw [if_neg hs]
    rcases hcon : p.ib_con_id with _ | cp
    · rfl
    · dsimp only
      by_cases hcl : cp ≠ 0 ∧ cp ∉ cons
      · rw [if_pos hcl]
      · rw [if_neg hcl]

/-- Fold form of `closeStale_inserts`. -/
theorem closeLoop_inserts (cons seen : List Int) :
    ∀ (SL : List PositionRow) (st : DB × SyncStats),
    (SL.foldl (closeStale cons seen) st).2.inserts = st.2.inserts := by
  intro SL
  induction SL with
  | nil => exact fun st => rfl
  | cons p SL' ih =>
    intro st
    simp only [List.foldl_cons]
    exact (ih _).trans (closeStale_inserts cons seen st p)

/-- A row whose truthy con id is in the portfolio is never closed as
stale. -/
theorem closeStale_closes_skip (cons seen : List Int) (st : DB × SyncStats)
    (p : PositionRow)
    (hp : ∀ cc : Int, p.ib_con_id = some cc → cc ≠ 0 → cc ∈ cons) :
    (closeStale cons seen st p).2.closes = st.2.closes := by
  unfold closeStale
  by_cases hs : p.id ∈ seen
  · rw [if_pos hs]
  · rw [if_neg hs]
    rcases hcon : p.ib_con_id with _ | cp
    · rfl
    · dsimp only
      have hno : ¬(cp ≠ 0 ∧ cp ∉ cons) := by
        intro hand
        exact hand.2 (hp cp hcon hand.1)
      rw [if_neg hno]

/-- Fold form of `closeStale_closes_skip`. -/
theorem closeLoop_closes_zero (cons seen : List Int) :
    ∀ (SL : List PositionRow) (st : DB × SyncStats),
    (∀ p ∈ SL, ∀ cc : Int, p.ib_con_id = some cc → cc ≠ 0 → cc ∈ cons) →
    (SL.foldl (closeStale cons seen) st).2.closes = st.2.closes := by
  intro SL
  induction SL with
  | nil => exact fun st _ => rfl
  | cons p SL' ih =>
    intro st hall
    simp only [List.foldl_cons]
    exact (ih _ (fun q hq => hall q (List.mem_cons_of_mem _ hq))).trans
      (closeStale_closes_skip cons seen st p (hall p (List.mem_cons_self _ _)))

/-- Second-run item loop: when every broker item already has an open row
with its contract, the loop inserts nothing (and never closes). -/
theorem itemLoop_run2 (snap : List PositionRow) :
    ∀ (L : List IBPortfolioItem) (st : DB × List Int × SyncStats),
    (∀ i ∈ L, goodFor st.1 i) →
    (L.foldl (syncOneItem snap) st).2.2.inserts = st.2.2.inserts ∧
    (L.foldl (syncOneItem snap) st).2.2.closes = st.2.2.closes := by
  intro L
  induction L with
  | nil => exact fun st _ => ⟨rfl, rfl⟩
  | cons i L' ih =>
    intro st h
    have hgood := h i (List.mem_cons_self _ _)
    have htail : ∀ j ∈ L', goodFor (syncOneItem snap st i).1 j := fun j hj =>
      syncOneItem_preserves_goodFor snap st i j (h j (List.mem_cons_of_mem _ hj))
    have hrec := ih (syncOneItem snap st i) htail
    simp only [List.foldl_cons]
    exact ⟨hrec.1.trans (syncOneItem_inserts_of_good snap st i hgood),
      hrec.2.trans (syncOneItem_closes snap st i)⟩

/-- First-run item loop: the tracking, freshness and linkage invariants are
maintained, every processed item ends `goodSeen`, and `goodSeen` facts are
preserved. -/
theorem itemLoop_run1 (cons : List Int) (snap : List PositionRow)
    (hsnodup : (snapIds snap).Nodup)
    (hsnapopen : ∀ p ∈ snap, p.status = "open") :
    ∀ (L : List IBPortfolioItem) (st : DB × List Int × SyncStats),
    (∀ i ∈ L, i.con_id ∈ cons) →
    (∀ i ∈ L, ∀ p ∈ snap, p.ib_con_id = some i.con_id → contractEq p i) →
    tracksSnap snap st.1 → (∀ r0 ∈ snap, r0.id < st.1.next_id) →
    conLinked cons snap st.2.1 st.1 →
    tracksSnap snap (L.foldl (syncOneItem snap) st).1 ∧
    (∀ r0 ∈ snap, r0.id < (L.foldl (syncOneItem snap) st).1.next_id) ∧
    conLinked cons snap (L.foldl (syncOneItem snap) st).2.1
      (L.foldl (syncOneItem snap) st).1 ∧
    (∀ i ∈ L, goodSeen snap (L.foldl (syncOneItem snap) st).1
      (L.foldl (syncOneItem snap) st).2.1 i) ∧
    (∀ j, goodSeen snap st.1 st.2.1 j →
      goodSeen snap (L.foldl (syncOneItem snap) st).1
        (L.foldl (syncOneItem snap) st).2.1 j) := by
  intro L
  induction L with
  | nil =>
    intro st _ _ ht hf hc
    exact ⟨ht, hf, hc, fun i hi => absurd hi (List.not_mem_nil i),
      fun j h => h⟩
  | cons i L' ih =>
    intro st hLc hLs ht hf hc
    have hstep := ih (syncOneItem snap st i)
      (fun j hj => hLc j (List.mem_cons_of_mem _ hj))
      (fun j hj => hLs j (List.mem_cons_of_mem _ hj))
      (tracksSnap_syncOneItem snap st i ht)
      (fresh_syncOneItem snap st i hf)
      (conLinked_syncOneItem cons snap st i hsnodup
        (hLc i (List.mem_cons_self _ _)) hc)
    simp only [List.foldl_cons]
    refine ⟨hstep.1, hstep.2.1, hstep.2.2.1, ?_, ?_⟩
    · intro j hj
      rcases List.mem_cons.mp hj with heq | hj'
      · subst heq
        exact hstep.2.2.2.2 j (goodSeen_syncOneItem_self snap st j hsnapopen
          ht hf (hLs j (List.mem_cons_self _ _)))
      · exact hstep.2.2.2.1 j hj'
    · intro j hgs
      exact hstep.2.2.2.2 j (goodSeen_syncOneItem_mono snap st i j hgs)

/-- C8 (counterexample): reconciliation as implemented is NOT idempotent on
every table.  `dbMismatch` holds one open row whose stored broker-reference
id (10) belongs to broker item `itemYat10` while its contract fields match
`itemXat20`.  The first run rebinds the row's reference id to 20 via the
contract fallback; the second run then finds no match at all for
`itemYat10` and inserts a position. -/
theorem sync_positions_not_idempotent :
    (sync_positions (sync_positions dbMismatch (.ok [itemYat10, itemXat20])).1
      (.ok [itemYat10, itemXat20])).2.inserts = 1 := by
  rfl

/-- C8 (amended): reconciliation is idempotent on well-formed tables — row
ids distinct and below the insert counter, and every open row whose stored
broker-reference id matches a portfolio item's con id records that item's
contract.  Then running `_sync_positions` twice against an unchanged broker
portfolio performs zero inserts and zero closes in the second run. -/
theorem sync_positions_idempotent (db : DB) (ib_items : List IBPortfolioItem)
    (hids : (db.rows.map (fun r => r.id)).Nodup)
    (hfresh : ∀ r ∈ db.rows, r.id < db.next_id)
    (hcons : ∀ r ∈ db.rows, r.status = "open" → ∀ i ∈ ibOptions ib_items,
      r.ib_con_id = some i.con_id → contractEq r i) :
    (sync_positions (sync_positions db (.ok ib_items)).1 (.ok ib_items)).2.inserts = 0 ∧
    (sync_positions (sync_positions db (.ok ib_items)).1 (.ok ib_items)).2.closes = 0 := by
  have hsnapsub : ∀ p ∈ db.openRows, p ∈ db.rows :=
    fun p hp => (List.mem_filter.mp hp).1
  have hsnapopen : ∀ p ∈ db.openRows, p.status = "open" := by
    intro p hp
    have := (List.mem_filter.mp hp).2
    simpa using this
  have hsnodup : (snapIds db.openRows).Nodup := by
    have hsub : (db.openRows.map (fun r => r.id)).Sublist
        (db.rows.map (fun r => r.id)) :=
      (List.filter_sublist _).map _
    exact List.Nodup.sublist hsub hids
  have hfresh0 : ∀ r0 ∈ db.openRows, r0.id < db.next_id :=
    fun r0 h => hfresh r0 (hsnapsub r0 h)
  have htrack0 : tracksSnap db.openRows db :=
    fun r0 h => ⟨r0, hsnapsub r0 h, rfl, rfl, rfl, rfl, rfl, rfl⟩
  have hconl0 : conLinked ((ibOptions ib_items).map (fun i => i.con_id))
      db.openRows [] db := by
    intro r hr hopen cc hcc hcc0
    right
    refine ⟨r, ?_, rfl, hcc, by simp⟩
    exact List.mem_filter.mpr ⟨hr, by simp [hopen]⟩
  have hLc : ∀ i ∈ ibOptions ib_items,
      i.con_id ∈ (ibOptions ib_items).map (fun i => i.con_id) :=
    fun i hi => List.mem_map_of_mem _ hi
  have hLs : ∀ i ∈ ibOptions ib_items, ∀ p ∈ db.openRows,
      p.ib_con_id = some i.con_id → contractEq p i :=
    fun i hi p hp hpc => hcons p (hsnapsub p hp) (hsnapopen p hp) i hi hpc
  obtain ⟨htrack1, hfresh1, hconl1, hgoodL, -⟩ :=
    itemLoop_run1 ((ibOptions ib_items).map (fun i => i.con_id)) db.openRows
      hsnodup hsnapopen (ibOptions ib_items) (db, [], {}) hLc hLs htrack0
      hfresh0 hconl0
  -- the reconciled table after run 1, definitionally
  have hrun1 : sync_positions db (.ok ib_items) =
      db.openRows.foldl
        (closeStale ((ibOptions ib_items).map (fun i => i.con_id))
          ((ibOptions ib_items).foldl (syncOneItem db.openRows)
            (db, [], {})).2.1)
        (((ibOptions ib_items).foldl (syncOneItem db.openRows)
            (db, [], {})).1,
         ((ibOptions ib_items).foldl (syncOneItem db.openRows)
            (db, [], {})).2.2) := rfl
  -- post-run-1 con-id invariant
  have hconInv : conInv ((ibOptions ib_items).map (fun i => i.con_id))
      (sync_positions db (.ok ib_items)).1 := by
    rw [hrun1]
    exact closeLoop_conInv _ _ db.openRows _ hconl1
  -- post-run-1 goodFor for every portfolio item
  have hgood1 : ∀ i ∈ ibOptions ib_items,
      goodFor (sync_positions db (.ok ib_items)).1 i := by
    intro i hi
    rw [hrun1]
    have hgs := closeLoop_goodSeen
      ((ibOptions ib_items).map (fun i => i.con_id))
      ((ibOptions ib_items).foldl (syncOneItem db.openRows) (db, [], {})).2.1
      db.openRows db.openRows
      (((ibOptions ib_items).foldl (syncOneItem db.openRows) (db, [], {})).1,
       ((ibOptions ib_items).foldl (syncOneItem db.openRows) (db, [], {})).2.2)
      i (fun p hp => hp) (hgoodL i hi)
    obtain ⟨r, hr, hopen, hc, -⟩ := hgs
    exact ⟨r, hr, hopen, hc⟩
  -- run 2, decomposed definitionally
  have hrun2 : sync_positions (sync_positions db (.ok ib_items)).1 (.ok ib_items) =
      (sync_positions db (.ok ib_items)).1.openRows.foldl
        (closeStale ((ibOptions ib_items).map (fun i => i.con_id))
          ((ibOptions ib_items).foldl
            (syncOneItem (sync_positions db (.ok ib_items)).1.openRows)
            ((sync_positions db (.ok ib_items)).1, [], {})).2.1)
        (((ibOptions ib_items).foldl
            (syncOneItem (sync_positions db (.ok ib_items)).1.openRows)
            ((sync_positions db (.ok ib_items)).1, [], {})).1,
         ((ibOptions ib_items).foldl
            (syncOneItem (sync_positions db (.ok ib_items)).1.openRows)
            ((sync_positions db (.ok ib_items)).1, [], {})).2.2) := rfl
  have hitem2 := itemLoop_run2 (sync_positions db (.ok ib_items)).1.openRows
    (ibOptions ib_items) ((sync_positions db (.ok ib_items)).1, [], {}) hgood1
  constructor
  · rw [hrun2]
    rw [closeLoop_inserts _ _ _ _]
    exact hitem2.1
  · rw [hrun2]
    rw [closeLoop_closes_zero _ _ _ _ ?hall]
    · exact hitem2.2
    case hall =>
      intro p hp cc hcc hcc0
      exact hconInv p (List.mem_filter.mp hp).1
        (by simpa using (List.mem_filter.mp hp).2) cc hcc hcc0

/-- Witness for `sync_positions_idempotent`: a one-row table whose open row
consistently records broker item `itemXat10` (reference id and contract
agree), reconciled twice against that single-item portfolio. -/
theorem sync_positions_idempotent_witness :
    (sync_positions (sync_positions dbMismatch (.ok [itemXat10])).1
      (.ok [itemXat10])).2.inserts = 0 ∧
    (sync_positions (sync_positions dbMismatch (.ok [itemXat10])).1
      (.ok [itemXat10])).2.closes = 0 :=
  sync_positions_idempotent dbMismatch [itemXat10] (by decide) (by decide)
    (by decide)

end DeepAlgo
